import Mathlib

/-!
# mpibounce: a shallow embedding of `mpibounce.c`

The program passes a fixed-size buffer ("the ball") among the ranks of an MPI
job, either around a ring (`sendrecv`) or by a broadcast whose source rotates
(`broadcast`), for a number of rounds or until `SIGUSR2` is caught.

The embedding follows the source statement by statement:

* the C library routines the program calls on strings (`strtoull`, `strtol`,
  `strtoll`, `isspace`, `strcasecmp`) are given as list functions;
* `parse_memory`, `bounce_method_parse`, `logline`, `catch_SIGUSR2` are
  functions on the process state;
* `main` is split at its start barrier: the option loop and the set-up up to
  line 350 are functions returning `Except` an exit status, and the code from
  the start barrier on (lines 355-449) is a step function over a program
  counter, so that a signal can be delivered between any two steps.

Everything the process does to the outside (lines written, MPI calls) is
appended to one trace, in program order.  C integers are mathematical integers:
`ring_arith_in_int_range` records that the sums of lines 372 and 375 stay
within `int` for every communicator of at most `2 ^ 30` ranks, and the round
counter, a `long long` that goes up by one per round, would need `2 ^ 63`
rounds to leave its type.
-/

namespace MpiBounce

/-! ## Constants of the C environment (LP64 Linux) -/

/-- The constant `INT_MAX` of `<limits.h>`. -/
def INT_MAX : Int := 2147483647

/-- The constant `LONG_MAX` of `<limits.h>` (also `LLONG_MAX`). -/
def LONG_MAX : Int := 9223372036854775807

/-- The constant `LONG_MIN` of `<limits.h>` (also `LLONG_MIN`). -/
def LONG_MIN : Int := -9223372036854775808

/-- The constant `ULLONG_MAX` of `<limits.h>`; `size_t` has the same range. -/
def ULLONG_MAX : Nat := 18446744073709551615

/-- The constant `EINVAL` of `<errno.h>`. -/
def EINVAL : Int := 22

/-- Line 13: `#define DEFAULT_BALL_SIZE 8192`. -/
def DEFAULT_BALL_SIZE : Nat := 8192

/-- The operator `%` of C on `int`/`long`: the remainder of truncated division. -/
def cmod (a b : Int) : Int := Int.tmod a b

/-! ## String routines of the C library -/

/-- The function `isspace` in the C locale: space, `\t`, `\n`, `\v`, `\f`, `\r`. -/
def isspace (c : Char) : Bool :=
  c.toNat == 32 || (9 ≤ c.toNat && c.toNat ≤ 13)

/-- The value of a character as a digit, for bases up to 36. -/
def digitVal (c : Char) : Option Nat :=
  if 48 ≤ c.toNat ∧ c.toNat ≤ 57 then some (c.toNat - 48)
  else if 97 ≤ c.toNat ∧ c.toNat ≤ 122 then some (c.toNat - 87)
  else if 65 ≤ c.toNat ∧ c.toNat ≤ 90 then some (c.toNat - 55)
  else none

/-- Reads the longest run of digits of `base`; gives the value read so far, the
number of digits read and what is left of the string. -/
def scanDigits (base : Nat) : List Char → Nat → Nat → Nat × Nat × List Char
  | [], acc, n => (acc, n, [])
  | c :: cs, acc, n =>
    match digitVal c with
    | some d => if d < base then scanDigits base cs (acc * base + d) (n + 1) else (acc, n, c :: cs)
    | none => (acc, n, c :: cs)

/-- What the `strto*` family reads with base argument `0`. -/
structure Scan where
  /-- The sign was `-`. -/
  negative : Bool
  /-- The absolute value read. -/
  magnitude : Nat
  /-- Whether a number was read, that is `endptr > nptr`. -/
  converted : Bool
  /-- The string at `endptr`. -/
  rest : List Char
deriving DecidableEq, Repr

/-- Whether `c` is a hexadecimal digit. -/
def isHexDigit (c : Char) : Bool :=
  match digitVal c with
  | some d => d < 16
  | none => false

/-- The subject sequence of `strtol(nptr, &endptr, 0)`: white space, an optional
sign, then `0x`/`0X` and hexadecimal digits, or `0` and octal digits, or decimal
digits.  When no digit is read, `endptr` is `nptr`. -/
def scanNumber (nptr : List Char) : Scan :=
  let s := nptr.dropWhile isspace
  let (neg, s) :=
    match s with
    | c :: cs => if c.toNat = 45 then (true, cs) else if c.toNat = 43 then (false, cs) else (false, s)
    | [] => (false, s)
  let (base, body) :=
    match s with
    | z :: x :: h :: cs =>
      if z.toNat = 48 ∧ (x.toNat = 120 ∨ x.toNat = 88) ∧ isHexDigit h then (16, h :: cs)
      else if z.toNat = 48 then (8, s) else (10, s)
    | z :: _ => if z.toNat = 48 then (8, s) else (10, s)
    | [] => (10, s)
  let (v, n, rest) := scanDigits base body 0 0
  if n = 0 then ⟨neg, 0, false, nptr⟩ else ⟨neg, v, true, rest⟩

/-- The function `strtoull(nptr, &endptr, 0)`: the value, saturated at
`ULLONG_MAX`, negated in the unsigned type after a `-`. -/
def strtoull (nptr : List Char) : Nat × Scan :=
  let sc := scanNumber nptr
  let v :=
    if ULLONG_MAX < sc.magnitude then ULLONG_MAX
    else if sc.negative then (2 ^ 64 - sc.magnitude) % 2 ^ 64 else sc.magnitude
  (v, sc)

/-- The function `strtol(nptr, &endptr, 0)`, which `strtoll` equals on LP64:
the value, saturated at `LONG_MIN` and `LONG_MAX`. -/
def strtol (nptr : List Char) : Int × Scan :=
  let sc := scanNumber nptr
  let v : Int :=
    if sc.negative then
      (if (2 : Int) ^ 63 < sc.magnitude then LONG_MIN else - (sc.magnitude : Int))
    else
      (if LONG_MAX < sc.magnitude then LONG_MAX else (sc.magnitude : Int))
  (v, sc)

/-- The function `tolower` on ASCII letters. -/
def tolower (c : Char) : Char :=
  if 65 ≤ c.toNat ∧ c.toNat ≤ 90 then Char.ofNat (c.toNat + 32) else c

/-- Whether `strcasecmp(a, b) == 0`. -/
def strcasecmp_eq (a b : List Char) : Bool :=
  a.map tolower == b.map tolower

/-! ## `parse_memory` (lines 157-210) -/

/-- Line 203: `while ( magnitude-- ) value *= base;` on `unsigned long long`. -/
def scaleLoop : Nat → Nat → Nat → Nat
  | 0, value, _ => value
  | magnitude + 1, value, base => scaleLoop magnitude ((value * base) % 2 ^ 64) base

/-- Lines 171-186: the first `switch`, with its fall-through cases: the
magnitude and the string after the unit letter. -/
def unitSwitch (endptr : List Char) : Nat × List Char :=
  match endptr with
  | c :: cs =>
    if c.toNat = 116 ∨ c.toNat = 84 then (4, cs)
    else if c.toNat = 103 ∨ c.toNat = 71 then (3, cs)
    else if c.toNat = 109 ∨ c.toNat = 77 then (2, cs)
    else if c.toNat = 107 ∨ c.toNat = 75 then (1, cs)
    else (0, endptr)
  | [] => (0, endptr)

/-- Lines 187-193: the second `switch`: `i` or `I` selects base 1024. -/
def baseSwitch (endptr : List Char) : Nat × List Char :=
  match endptr with
  | c :: cs => if c.toNat = 105 ∨ c.toNat = 73 then (1024, cs) else (1000, endptr)
  | [] => (1000, endptr)

/-- Lines 194-199: the third `switch`: skips one `b` or `B`. -/
def byteSwitch (endptr : List Char) : List Char :=
  match endptr with
  | c :: cs => if c.toNat = 98 ∨ c.toNat = 66 then cs else endptr
  | [] => endptr

/-- The function `parse_memory` of lines 157-210. -/
def parse_memory (memory_str : List Char) : Nat :=
  let (value, sc) := strtoull memory_str
  if sc.converted then
    let endptr := sc.rest.dropWhile isspace
    let (magnitude, endptr) := unitSwitch endptr
    let (base, endptr) := baseSwitch endptr
    let endptr := byteSwitch endptr
    if endptr ≠ [] then 0 else scaleLoop magnitude value base
  else 0

/-! ## Process state -/

/-- The type `bounce_method_t` of lines 38-44. -/
inductive bounce_method_t
  | bounce_method_sendrecv
  | bounce_method_broadcast
  | bounce_method_max
deriving DecidableEq, Repr

open bounce_method_t

/-- Line 43: `bounce_method_default = bounce_method_sendrecv`. -/
def bounce_method_default : bounce_method_t := bounce_method_sendrecv

/-- The table `bounce_method_names` of lines 32-36. -/
def bounce_method_names : bounce_method_t → Option String
  | bounce_method_sendrecv => some "sendrecv"
  | bounce_method_broadcast => some "broadcast"
  | bounce_method_max => none

/-- The function `bounce_method_parse` of lines 46-58. -/
def bounce_method_parse (method_str : List Char) : bounce_method_t :=
  if strcasecmp_eq method_str "sendrecv".toList then bounce_method_sendrecv
  else if strcasecmp_eq method_str "broadcast".toList then bounce_method_broadcast
  else bounce_method_max

/-- The values of `verbosity_t` (lines 62-68). -/
def verbosity_error : Nat := 0

/-- The value `verbosity_warning`. -/
def verbosity_warning : Nat := 1

/-- The value `verbosity_info`. -/
def verbosity_info : Nat := 2

/-- The value `verbosity_debug`. -/
def verbosity_debug : Nat := 3

/-- The value `verbosity_max`. -/
def verbosity_max : Nat := 4

/-- An argument of a `printf`-style call. -/
inductive Arg
  | int (v : Int)
  | str (s : List Char)
deriving DecidableEq, Repr

/-- What a process does to the outside, in program order. -/
inductive Event
  /-- The call `fprintf(out_fptr, fmt, ...)` followed by `fflush(out_fptr)`. -/
  | out (fmt : String) (args : List Arg)
  /-- The call `vfprintf(stderr, fmt, ...)` followed by `fflush(stderr)`, in `logline`. -/
  | err (fmt : String) (args : List Arg)
  /-- The call `printf(fmt, ...)`, in `usage`. -/
  | stdout (fmt : String) (args : List Arg)
  /-- The call `MPI_Send(the_ball, gSize, MPI_BYTE, dest, 0, MPI_COMM_WORLD)`. -/
  | MPI_Send (count : Nat) (dest : Int)
  /-- The call `MPI_Recv(the_ball, gSize, MPI_BYTE, source, 0, MPI_COMM_WORLD, &status)`. -/
  | MPI_Recv (count : Nat) (source : Int)
  /-- The call `MPI_Bcast(the_ball, gSize, MPI_BYTE, root, MPI_COMM_WORLD)`. -/
  | MPI_Bcast (count : Nat) (root : Int)
  /-- The call `MPI_Barrier(MPI_COMM_WORLD)`. -/
  | MPI_Barrier
  /-- The call `MPI_Finalize()`. -/
  | MPI_Finalize
  /-- The call `fopen(out_filename, "w")`. -/
  | fopen (path : List Char)
  /-- The call `fclose(out_fptr)`. -/
  | fclose
  /-- The call `malloc(gSize)`. -/
  | malloc (size : Nat)
  /-- The call `free(the_ball)`. -/
  | free
deriving DecidableEq, Repr

/-- The places of `main` from the start barrier on; a step runs the lines named. -/
inductive PC
  /-- Lines 355-356. -/
  | startBarrier
  /-- Lines 361-365: `if ( gRounds != 0 )`, `switch ( gMethod )`, `if ( rank == gRootRank )`. -/
  | dispatch
  /-- Line 369. -/
  | rootCheckSignal
  /-- Line 370. -/
  | rootCheckRounds
  /-- Lines 371-373. -/
  | rootSend
  /-- Line 374. -/
  | rootCheckSignalAfterSend
  /-- Lines 375-377. -/
  | rootRecv
  /-- Lines 379-381. -/
  | rootReport
  /-- Line 385. -/
  | otherCheckSignal
  /-- Line 386. -/
  | otherCheckRounds
  /-- Lines 387-388. -/
  | otherRecv
  /-- Line 389. -/
  | otherCheckSignalAfterRecv
  /-- Lines 390-392. -/
  | otherSend
  /-- Lines 394-396. -/
  | otherReport
  /-- Line 405. -/
  | bcastCheckSignal
  /-- Line 406. -/
  | bcastCheckRounds
  /-- Lines 407-420. -/
  | bcastBody
  /-- Lines 422-428. -/
  | bcastReport
  /-- Line 432. -/
  | loopExited
  /-- Lines 435-436. -/
  | freeBall
  /-- Lines 438-441. -/
  | closeOutput
  /-- Lines 443-444. -/
  | endBarrier
  /-- Lines 446-449. -/
  | finalize
  /-- After `return 0`. -/
  | done
deriving DecidableEq, Repr

/-- The globals of lines 72-78, the locals of `main` that the loops use, the
place in `main`, and the trace of what the process has done. -/
structure State where
  /-- Line 72. -/
  gVerbosity : Nat
  /-- Line 73. -/
  gEarlyTermination : Int
  /-- Line 74. -/
  gRootRank : Int
  /-- Line 75. -/
  gMyRank : Int
  /-- Line 76. -/
  gSize : Nat
  /-- Line 77. -/
  gRounds : Int
  /-- Line 78. -/
  gMethod : bounce_method_t
  /-- The local `rank`, set by `MPI_Comm_rank`. -/
  rank : Int
  /-- The local `size`, set by `MPI_Comm_size`. -/
  size : Int
  /-- The local `round` of line 221. -/
  round : Int
  /-- The local `root_rank` of line 402. -/
  root_rank : Int
  /-- The local `out_filename` of line 226; `none` is `NULL`. -/
  out_filename : Option (List Char)
  /-- The place in `main`. -/
  pc : PC
  /-- What the process has done so far. -/
  trace : List Event
deriving DecidableEq, Repr

/-- The state after lines 220-243: the initialisers of lines 72-78 and 221-226,
with `rank` and `size` as the MPI library reports them.  The `DEBUG` calls of
lines 236-242 write nothing, `gVerbosity` being `verbosity_error` there. -/
def initialState (rank size : Int) : State :=
  { gVerbosity := verbosity_error, gEarlyTermination := 0, gRootRank := 0, gMyRank := -1,
    gSize := DEFAULT_BALL_SIZE, gRounds := -1, gMethod := bounce_method_default,
    rank := rank, size := size, round := 0, root_rank := 0, out_filename := none,
    pc := PC.startBarrier, trace := [] }

/-- Appends one event to the trace. -/
def emit (e : Event) (s : State) : State :=
  { s with trace := s.trace ++ [e] }

/-- The function `logline` of lines 82-97. -/
def logline (level : Nat) (format : String) (args : List Arg) (s : State) : State :=
  if level ≤ s.gVerbosity then emit (Event.err format args) s else s

/-- The macro `ERROR` of line 99. -/
def ERROR (fmt : String) (args : List Arg) (s : State) : State :=
  logline verbosity_error ("[ ERROR ] " ++ fmt ++ "\n") args s

/-- The macro `WARNING` of line 100. -/
def WARNING (fmt : String) (args : List Arg) (s : State) : State :=
  logline verbosity_warning ("[WARNING] " ++ fmt ++ "\n") args s

/-- The macro `INFO` of line 101. -/
def INFO (fmt : String) (args : List Arg) (s : State) : State :=
  logline verbosity_info ("[ INFO  ] " ++ fmt ++ "\n") args s

/-- The macro `DEBUG` of line 102. -/
def DEBUG (fmt : String) (args : List Arg) (s : State) : State :=
  logline verbosity_debug ("[ DEBUG ] " ++ fmt ++ "\n") args s

/-- The signal handler `catch_SIGUSR2` of lines 144-153; `sigMask` is the number
of the signal delivered. -/
def catch_SIGUSR2 (sigMask : Int) (s : State) : State :=
  let s := WARNING "[rank %d] catch_SIGUSR2" [Arg.int s.gMyRank] s
  { s with gEarlyTermination := sigMask }

/-! ## `main` up to the start barrier (lines 248-350) -/

/-- The function `usage` of lines 106-140. -/
def usage (exe : List Char) (s : State) : State :=
  let s := emit (Event.stdout
    ("usage:\n\n" ++
     "    %s \x7boptions\x7d\n\n" ++
     "  options:\n\n" ++
     "    -h/--help                  show this information\n" ++
     "    -v/--verbose               increase amount of information displayed by root rank\n" ++
     "    -r/--root-rank #           which rank should handle output and start the ball\n" ++
     "                               rolling (default: 0)\n" ++
     "    -o/--outfile <path>        file to which all output should be written (not including\n" ++
     "                               errors, warnings, info, and debug output)\n" ++
     "    -m/--method <method>       method used to pass the ball (default: %s)\n" ++
     "    -s/--size <byte-size>      size of the ball (default: %lld)\n" ++
     "    -r/--rounds #              number of rounds to pass the ball; use a negative integer\n" ++
     "                               to run indefinitely, zero to setup the run and exit before\n" ++
     "                               passing the ball\n" ++
     "\n" ++
     "    <byte-size> := #\x7b.#\x7d\x7bTGMK\x7bi\x7d\x7bB\x7d\x7d\n" ++
     "    <method> := ")
    [Arg.str exe, Arg.str "sendrecv".toList, Arg.int DEFAULT_BALL_SIZE]) s
  let s := emit (Event.stdout "%s%s" [Arg.str "".toList, Arg.str "sendrecv".toList]) s
  let s := emit (Event.stdout "%s%s" [Arg.str ", ".toList, Arg.str "broadcast".toList]) s
  emit (Event.stdout "\n\n" []) s

/-- A run of `main` that has not left: the state; or one that has called
`exit`: the status and the state then. -/
abbrev Outcome := Except (Int × State) State

/-- The statements `MPI_Finalize(); exit(status);`. -/
def finalizeAndExit (status : Int) (s : State) : Outcome :=
  Except.error (status, emit Event.MPI_Finalize s)

/-- Lines 250-256: `case 'v'`. -/
def case_v (s : State) : Outcome :=
  let s := { s with gVerbosity := s.gVerbosity + 1 }
  if s.gVerbosity = verbosity_max then
    Except.ok { s with gVerbosity := verbosity_max - 1 }
  else
    Except.ok (DEBUG "verbosity increased to %d" [Arg.int s.gVerbosity] s)

/-- Lines 257-261: `case 'h'`. -/
def case_h (exe : List Char) (s : State) : Outcome :=
  finalizeAndExit 0 (usage exe s)

/-- Lines 262-270: `case 's'`. -/
def case_s (optarg : List Char) (s : State) : Outcome :=
  let s := { s with gSize := parse_memory optarg }
  if s.gSize = 0 then
    finalizeAndExit EINVAL (ERROR "invalid memory size provided to -s/--size: %s" [Arg.str optarg] s)
  else
    Except.ok (DEBUG "ball will be %llu bytes in size" [Arg.int s.gSize] s)

/-- Lines 271-281: `case 'r'`. -/
def case_r (optarg : List Char) (s : State) : Outcome :=
  let (dummy_lld, sc) := strtol optarg
  if sc.converted then
    let s := { s with gRounds := dummy_lld }
    Except.ok (DEBUG "round count set to %lld" [Arg.int s.gRounds] s)
  else
    finalizeAndExit EINVAL (ERROR "invalid round count provided to -r/--rounds: %s" [Arg.str optarg] s)

/-- Lines 282-290: `case 'm'`. -/
def case_m (optarg : List Char) (s : State) : Outcome :=
  let s := { s with gMethod := bounce_method_parse optarg }
  if s.gMethod = bounce_method_max then
    finalizeAndExit EINVAL (ERROR "invalid bounce method provided to -m/--method: %s" [Arg.str optarg] s)
  else
    Except.ok (DEBUG "method %s selected"
      [Arg.str ((bounce_method_names s.gMethod).getD "").toList] s)

/-- Lines 291-294: `case 'o'`. -/
def case_o (optarg : List Char) (s : State) : Outcome :=
  let s := { s with out_filename := some optarg }
  Except.ok (DEBUG "will output to file %s" [Arg.str optarg] s)

/-- Lines 297-309: what `case 'R'` does with the result `dummy_ld` of `strtol`
and with whether `endptr > optarg`. -/
def rootRankFrom (dummy_ld : Int) (converted : Bool) (optarg : List Char) (s : State) : Outcome :=
  if converted then
    if dummy_ld < 0 ∨ dummy_ld > INT_MAX then
      finalizeAndExit EINVAL
        (ERROR "invalid rank index (out of range) provided to -R/--root-rank: %ld" [Arg.int dummy_ld] s)
    else
      let s := { s with gRootRank := cmod dummy_ld s.size }
      Except.ok (INFO "root rank %lld reduces to %d" [Arg.int dummy_ld, Arg.int s.gRootRank] s)
  else
    finalizeAndExit EINVAL (ERROR "invalid round count provided to -r/--rounds: %s" [Arg.str optarg] s)

/-- Lines 295-310: `case 'R'`. -/
def case_R (optarg : List Char) (s : State) : Outcome :=
  rootRankFrom (strtol optarg).1 (strtol optarg).2.converted optarg s

/-- Lines 249-311: the `switch` on what `getopt_long` returned, `optch` with its
`optarg`; a character without a case is skipped. -/
def optionSwitch (exe : List Char) (optch : Char) (optarg : List Char) (s : State) : Outcome :=
  if optch = 'v' then case_v s
  else if optch = 'h' then case_h exe s
  else if optch = 's' then case_s optarg s
  else if optch = 'r' then case_r optarg s
  else if optch = 'm' then case_m optarg s
  else if optch = 'o' then case_o optarg s
  else if optch = 'R' then case_R optarg s
  else Except.ok s

/-- Lines 248-312: the loop over the options that `getopt_long` finds, in order. -/
def parseOptions (exe : List Char) : List (Char × List Char) → State → Outcome
  | [], s => Except.ok s
  | (optch, optarg) :: opts, s =>
    match optionSwitch exe optch optarg s with
    | Except.ok s1 => parseOptions exe opts s1
    | Except.error e => Except.error e

/-- What the C library answers during set-up. -/
structure Env where
  /-- Whether `fopen` returns a stream. -/
  fopen_ok : Bool
  /-- The value of `errno` after a failed `fopen`. -/
  fopen_errno : Int
  /-- Whether `malloc` returns a block. -/
  malloc_ok : Bool
  /-- The value of `errno` after a failed `malloc`. -/
  malloc_errno : Int
deriving DecidableEq, Repr

/-- Lines 323-335: the root rank opens the output. -/
def openOutput (env : Env) (s : State) : Outcome :=
  if s.rank = s.gRootRank then
    match s.out_filename with
    | some path =>
      let s := emit (Event.fopen path) s
      if env.fopen_ok then
        Except.ok (INFO "primary rank output file opened for writing" [] s)
      else
        finalizeAndExit env.fopen_errno
          (ERROR "failed to open output file `%s` (errno = %d)" [Arg.str path, Arg.int env.fopen_errno] s)
    | none => Except.ok (INFO "primary rank output file opened for writing" [] s)
  else Except.ok s

/-- Lines 337-350: the ball is allocated. -/
def allocateBall (env : Env) (s : State) : Outcome :=
  let s := INFO "initialization complete for rank %d of %d" [Arg.int s.rank, Arg.int s.size] s
  let s := DEBUG "allocating the ball in rank %d of %d" [Arg.int s.rank, Arg.int s.size] s
  let s := emit (Event.malloc s.gSize) s
  if env.malloc_ok then
    Except.ok (INFO "ball allocated in rank %d of %d" [Arg.int s.rank, Arg.int s.size] s)
  else
    let s := ERROR "failed to allocate ball of %llu bytes (errno = %d) in rank %d of %d"
      [Arg.int s.gSize, Arg.int env.malloc_errno, Arg.int s.rank, Arg.int s.size] s
    let s :=
      if s.rank = s.gRootRank ∧ s.out_filename.isSome then
        INFO "primary rank output file closed in rank %d of %d" [Arg.int s.rank, Arg.int s.size]
          (emit Event.fclose s)
      else s
    finalizeAndExit env.malloc_errno s

/-- Lines 314-350: from the end of the option loop to the start barrier. -/
def setup (env : Env) (s : State) : Outcome :=
  let s := INFO "MPI startup complete for rank %d of %d" [Arg.int s.rank, Arg.int s.size] s
  let s := { s with gMyRank := s.rank }
  let s := DEBUG "registering SIGUSR2 handler in rank %d of %d" [Arg.int s.rank, Arg.int s.size] s
  match openOutput env s with
  | Except.ok s1 => allocateBall env s1
  | Except.error e => Except.error e

/-- Lines 220-350: `main` of rank `rank` among `size`, given the options found
on its command line, up to its arrival at the start barrier. -/
def mainToBarrier (exe : List Char) (opts : List (Char × List Char)) (env : Env)
    (rank size : Int) : Outcome :=
  match parseOptions exe opts (initialState rank size) with
  | Except.ok s => setup env s
  | Except.error e => Except.error e

/-! ## `main` from the start barrier on (lines 355-449) -/

/-- Lines 380 and 424: the record written to `out_fptr` on early termination. -/
def earlyTerminationRecord (s : State) : Event :=
  Event.out "Early termination on signal %d at round %lld in rank %d of %d\n"
    [Arg.int s.gEarlyTermination, Arg.int s.round, Arg.int s.rank, Arg.int s.size]

/-- Lines 395 and 426: the same record, as an `INFO` line of a rank that is not the root. -/
def earlyTerminationInfo (s : State) : State :=
  INFO "Early termination on signal %d at round %lld in rank %d of %d"
    [Arg.int s.gEarlyTermination, Arg.int s.round, Arg.int s.rank, Arg.int s.size] s

/-- Lines 371 and 408: `fprintf(out_fptr, "Started round %lld\n", round)`. -/
def startedRound (round : Int) : Event :=
  Event.out "Started round %lld\n" [Arg.int round]

/-- Lines 370, 386, 406: `(gRounds >= 0) && (round >= gRounds)`. -/
def roundsReached (s : State) : Bool :=
  decide (s.gRounds ≥ 0) && decide (s.round ≥ s.gRounds)

/-- One step of `main`: the lines of the place `s.pc`. -/
def step (s : State) : State :=
  match s.pc with
  | PC.startBarrier =>
    let s := emit Event.MPI_Barrier s
    let s := INFO "MPI barrier reached for rank %d of %d" [Arg.int s.rank, Arg.int s.size] s
    { s with pc := PC.dispatch }
  | PC.dispatch =>
    if s.gRounds ≠ 0 then
      match s.gMethod with
      | bounce_method_sendrecv =>
        if s.rank = s.gRootRank then { s with pc := PC.rootCheckSignal }
        else { s with pc := PC.otherCheckSignal }
      | bounce_method_broadcast =>
        { s with root_rank := s.gRootRank, pc := PC.bcastCheckSignal }
      | bounce_method_max => { s with pc := PC.loopExited }
    else { s with pc := PC.freeBall }
  -- the root of the ring, lines 366-381
  | PC.rootCheckSignal =>
    if s.gEarlyTermination ≠ 0 then { s with pc := PC.rootReport }
    else { s with pc := PC.rootCheckRounds }
  | PC.rootCheckRounds =>
    if roundsReached s then { s with pc := PC.rootReport }
    else { s with pc := PC.rootSend }
  | PC.rootSend =>
    let s := emit (startedRound s.round) s
    let s := emit (Event.MPI_Send s.gSize (cmod (s.rank + 1) s.size)) s
    let s := INFO "[*] Ball sent from %d to %d" [Arg.int s.rank, Arg.int (cmod (s.rank + 1) s.size)] s
    { s with pc := PC.rootCheckSignalAfterSend }
  | PC.rootCheckSignalAfterSend =>
    if s.gEarlyTermination ≠ 0 then { s with pc := PC.rootReport }
    else { s with pc := PC.rootRecv }
  | PC.rootRecv =>
    let s := emit (Event.MPI_Recv s.gSize (cmod (s.rank + s.size - 1) s.size)) s
    let s := INFO "[*] Ball received from %d to %d"
      [Arg.int (cmod (s.rank + s.size - 1) s.size), Arg.int s.rank] s
    { s with round := s.round + 1, pc := PC.rootCheckSignal }
  | PC.rootReport =>
    let s := if s.gEarlyTermination ≠ 0 then emit (earlyTerminationRecord s) s else s
    { s with pc := PC.loopExited }
  -- the other ranks of the ring, lines 383-396
  | PC.otherCheckSignal =>
    if s.gEarlyTermination ≠ 0 then { s with pc := PC.otherReport }
    else { s with pc := PC.otherCheckRounds }
  | PC.otherCheckRounds =>
    if roundsReached s then { s with pc := PC.otherReport }
    else { s with pc := PC.otherRecv }
  | PC.otherRecv =>
    let s := emit (Event.MPI_Recv s.gSize (cmod (s.rank + s.size - 1) s.size)) s
    let s := INFO "[ ] Ball received from %d to %d"
      [Arg.int (cmod (s.rank + s.size - 1) s.size), Arg.int s.rank] s
    { s with pc := PC.otherCheckSignalAfterRecv }
  | PC.otherCheckSignalAfterRecv =>
    if s.gEarlyTermination ≠ 0 then { s with pc := PC.otherReport }
    else { s with pc := PC.otherSend }
  | PC.otherSend =>
    let s := emit (Event.MPI_Send s.gSize (cmod (s.rank + 1) s.size)) s
    let s := INFO "[ ] Ball sent from %d to %d" [Arg.int s.rank, Arg.int (cmod (s.rank + 1) s.size)] s
    { s with round := s.round + 1, pc := PC.otherCheckSignal }
  | PC.otherReport =>
    let s := if s.gEarlyTermination ≠ 0 then earlyTerminationInfo s else s
    { s with pc := PC.loopExited }
  -- the rotating broadcast, lines 404-428
  | PC.bcastCheckSignal =>
    if s.gEarlyTermination ≠ 0 then { s with pc := PC.bcastReport }
    else { s with pc := PC.bcastCheckRounds }
  | PC.bcastCheckRounds =>
    if roundsReached s then { s with pc := PC.bcastReport }
    else { s with pc := PC.bcastBody }
  | PC.bcastBody =>
    let s :=
      if s.root_rank = s.gRootRank ∧ s.rank = s.gRootRank then emit (startedRound s.round) s else s
    let s := if s.rank = s.root_rank then INFO "[*] Ball sent from %d" [Arg.int s.rank] s else s
    let s := emit (Event.MPI_Bcast s.gSize s.root_rank) s
    let s := if s.rank ≠ s.root_rank then INFO "[ ] Ball received in %d" [Arg.int s.rank] s else s
    let s := { s with root_rank := cmod (s.root_rank + 1) s.size }
    let s := if s.root_rank = s.gRootRank then { s with round := s.round + 1 } else s
    { s with pc := PC.bcastCheckSignal }
  | PC.bcastReport =>
    let s :=
      if s.gEarlyTermination ≠ 0 then
        (if s.rank = s.gRootRank then emit (earlyTerminationRecord s) s else earlyTerminationInfo s)
      else s
    { s with pc := PC.loopExited }
  -- lines 432-449
  | PC.loopExited =>
    let s := INFO "ball-passing loop has exited in rank %d of %d" [Arg.int s.rank, Arg.int s.size] s
    { s with pc := PC.freeBall }
  | PC.freeBall =>
    let s := emit Event.free s
    let s := INFO "ball deallocated in rank %d of %d" [Arg.int s.rank, Arg.int s.size] s
    { s with pc := PC.closeOutput }
  | PC.closeOutput =>
    let s :=
      if s.rank = s.gRootRank ∧ s.out_filename.isSome then
        INFO "primary rank output file closed in rank %d of %d" [Arg.int s.rank, Arg.int s.size]
          (emit Event.fclose s)
      else s
    { s with pc := PC.endBarrier }
  | PC.endBarrier =>
    let s := emit Event.MPI_Barrier s
    let s := INFO "MPI barrier reached for rank %d of %d" [Arg.int s.rank, Arg.int s.size] s
    { s with pc := PC.finalize }
  | PC.finalize =>
    let s := emit Event.MPI_Finalize s
    let s := INFO "MPI_Finalize() called, exiting now from rank %d of %d"
      [Arg.int s.rank, Arg.int s.size] s
    { s with pc := PC.done }
  | PC.done => s

/-- The state after `n` steps with no signal delivered. -/
def steps (n : Nat) (s : State) : State :=
  match n with
  | 0 => s
  | n + 1 => steps n (step s)

/-- What happens to a process next: `main` runs one step, or a signal with the
number `sigMask` is delivered and the handler runs. -/
inductive Action
  | step
  | signal (sigMask : Int)
deriving DecidableEq, Repr

/-- The effect of one action. -/
def exec (a : Action) (s : State) : State :=
  match a with
  | Action.step => step s
  | Action.signal sigMask => catch_SIGUSR2 sigMask s

/-- The state after a schedule of actions, the first one first. -/
def run (sched : List Action) (s : State) : State :=
  match sched with
  | [] => s
  | a :: rest => run rest (exec a s)

/-! ## Readings of a trace -/

/-- The `fprintf(out_fptr, ...)` calls of a trace, in order. -/
def outLines (t : List Event) : List Event :=
  t.filter (fun e => match e with | Event.out _ _ => true | _ => false)

/-- The destinations of the `MPI_Send` calls of a trace, in order. -/
def sendDests (t : List Event) : List Int :=
  t.filterMap (fun e => match e with | Event.MPI_Send _ dest => some dest | _ => none)

/-- The sources of the `MPI_Recv` calls of a trace, in order. -/
def recvSources (t : List Event) : List Int :=
  t.filterMap (fun e => match e with | Event.MPI_Recv _ source => some source | _ => none)

/-- The roots of the `MPI_Bcast` calls of a trace, in order. -/
def bcastRoots (t : List Event) : List Int :=
  t.filterMap (fun e => match e with | Event.MPI_Bcast _ root => some root | _ => none)

/-- The communication calls of a trace (send, receive, broadcast, barrier), in order. -/
def commCalls (t : List Event) : List Event :=
  t.filter (fun e => match e with
    | Event.MPI_Send _ _ => true
    | Event.MPI_Recv _ _ => true
    | Event.MPI_Bcast _ _ => true
    | Event.MPI_Barrier => true
    | _ => false)

/-- The lines written to `stderr` in a trace, in order. -/
def errLines (t : List Event) : List Event :=
  t.filter (fun e => match e with | Event.err _ _ => true | _ => false)

/-! ## Vocabulary of the statements -/

/-- A trace without the lines that `logline` writes to `stderr`. -/
def observable (t : List Event) : List Event :=
  t.filter (fun e => match e with | Event.err _ _ => false | _ => true)

/-- What `logline` appends to the trace at a verbosity. -/
def logged (level : Nat) (format : String) (args : List Arg) (verbosity : Nat) : List Event :=
  if level ≤ verbosity then [Event.err format args] else []

/-- The events of `m` consecutive rounds, the first one numbered `start`. -/
def roundsFrom (body : Int → List Event) (start : Int) : Nat → List Event
  | 0 => []
  | m + 1 => roundsFrom body start m ++ body (start + m)

/-- What the root of the ring does in the round numbered `k`. -/
def rootRoundEvents (gSize : Nat) (rank size : Int) (k : Int) : List Event :=
  [startedRound k,
   Event.MPI_Send gSize (cmod (rank + 1) size),
   Event.MPI_Recv gSize (cmod (rank + size - 1) size)]

/-- What another rank of the ring does in one round. -/
def otherRoundEvents (gSize : Nat) (rank size : Int) (_k : Int) : List Event :=
  [Event.MPI_Recv gSize (cmod (rank + size - 1) size),
   Event.MPI_Send gSize (cmod (rank + 1) size)]

/-- What is left of a run once the loops are over: lines 435-446. -/
def closing (s : State) : List Event :=
  [Event.free] ++
    (if s.rank = s.gRootRank ∧ s.out_filename.isSome then [Event.fclose] else []) ++
    [Event.MPI_Barrier, Event.MPI_Finalize]

/-- A rank at the start barrier of a ring relay, before any signal and before
any send or receive. -/
def atRingStart (s : State) : Prop :=
  s.pc = PC.startBarrier ∧ s.gMethod = bounce_method_sendrecv ∧ s.round = 0 ∧
    s.gEarlyTermination = 0 ∧ sendDests s.trace = [] ∧ recvSources s.trace = []

/-- What a rank does in the first `j` steps of a rotating broadcast that the
rank `g` of `N` starts: before each step that begins a rotation the root writes
the round, and each step is a broadcast from the next rank. -/
def bcastEvents (gSize : Nat) (rank : Int) (g N : Nat) : Nat → List Event
  | 0 => []
  | j + 1 => bcastEvents gSize rank g N j ++
      (if N ∣ j ∧ rank = (g : Int) then [startedRound ((j / N : Nat) : Int)] else []) ++
      [Event.MPI_Bcast gSize (((g + j) % N : Nat) : Int)]

/-- A rank at the start barrier of a rotating broadcast, before any signal. -/
def atBcastStart (s : State) : Prop :=
  s.pc = PC.startBarrier ∧ s.gMethod = bounce_method_broadcast ∧ s.round = 0 ∧
    s.gEarlyTermination = 0

/-- The rank 1 of scenario B at the start barrier: three ranks, rotating
broadcast, root 1, two rounds. -/
def scenarioB : State :=
  { initialState 1 3 with gRounds := 2, gMethod := bounce_method_broadcast, gRootRank := 1 }

/-- The root of scenario C, rank 0 of four with a round target of 100, after
five rounds, the send of round 5 and the delivery of signal 12. -/
def scenarioC : State :=
  run (List.replicate 30 Action.step ++ [Action.signal 12])
    { initialState 0 4 with gRounds := 100 }

/-- Rank 2 of three at the start barrier of a rotating broadcast with root 1 and
a round target of zero. -/
def zeroRounds : State :=
  { initialState 2 3 with gRounds := 0, gMethod := bounce_method_broadcast, gRootRank := 1 }

/-- The places inside the three loops (lines 366-378, 383-393, 404-421). -/
def inLoop (pc : PC) : Bool :=
  match pc with
  | PC.rootCheckSignal | PC.rootCheckRounds | PC.rootSend | PC.rootCheckSignalAfterSend
  | PC.rootRecv => true
  | PC.otherCheckSignal | PC.otherCheckRounds | PC.otherRecv | PC.otherCheckSignalAfterRecv
  | PC.otherSend => true
  | PC.bcastCheckSignal | PC.bcastCheckRounds | PC.bcastBody => true
  | _ => false

/-- The places where a loop reads `gEarlyTermination` (lines 369, 374, 385, 389, 405). -/
def isPoll (pc : PC) : Bool :=
  match pc with
  | PC.rootCheckSignal | PC.rootCheckSignalAfterSend => true
  | PC.otherCheckSignal | PC.otherCheckSignalAfterRecv => true
  | PC.bcastCheckSignal => true
  | _ => false

/-- The places where a loop compares `round` with `gRounds` (lines 370, 386, 406). -/
def isRoundsTest (pc : PC) : Bool :=
  match pc with
  | PC.rootCheckRounds | PC.otherCheckRounds | PC.bcastCheckRounds => true
  | _ => false

/-- The root of a ring of four at the head of its loop, with the default round
target, which is negative. -/
def unboundedRoot : State :=
  steps 2 (initialState 0 4)

/-- A run of `mpibounce -v` on rank 0 of four, at the start barrier. -/
def verboseAtBarrier : State :=
  match mainToBarrier "mpibounce".toList [('v', [])] ⟨true, 0, true, 0⟩ 0 4 with
  | Except.ok s => s
  | Except.error e => e.2

/-- Whether an action can happen: the number of a signal that is delivered is
positive (0 is the null signal of `kill`, which is never delivered). -/
def deliverable (a : Action) : Bool :=
  match a with
  | Action.step => true
  | Action.signal sigMask => decide (0 < sigMask)

/-- What the code before the start barrier keeps true of a process of `N`
ranks: the size is `N`, the root rank is in `[0, N)`, and the locals and the
flag are as initialised. -/
def rootValid (N : Int) (s : State) : Prop :=
  s.size = N ∧ 0 ≤ s.gRootRank ∧ s.gRootRank < N ∧ s.round = 0 ∧ s.gEarlyTermination = 0 ∧
    s.pc = PC.startBarrier

/-- The status with which a run has left, if it has. -/
def exitStatus (o : Outcome) : Option Int :=
  match o with
  | Except.ok _ => none
  | Except.error e => some e.1

/-- The number that the text read by `strtol` denotes, before saturation. -/
def scannedValue (sc : Scan) : Int :=
  if sc.negative then - (sc.magnitude : Int) else (sc.magnitude : Int)

/-- A state without the lines that `logline` has written to `stderr`. -/
def core (s : State) : State :=
  { s with trace := observable s.trace }

/-- The number of steps of `main` in a schedule. -/
def stepCount (sched : List Action) : Nat :=
  sched.countP (fun a => match a with | Action.step => true | _ => false)

/-- Whether every signal of a schedule has the number `sigMask`. -/
def onlySignal (sigMask : Int) (sched : List Action) : Bool :=
  sched.all (fun a => match a with | Action.step => true | Action.signal m => decide (m = sigMask))

/-- A state without the lines on `stderr` and without the flag. -/
def coreNoFlag (s : State) : State :=
  { s with gEarlyTermination := 0, trace := observable s.trace }

/-- The places of a run that skips the loops. -/
def offLoop (pc : PC) : Bool :=
  match pc with
  | PC.startBarrier | PC.dispatch | PC.freeBall | PC.closeOutput | PC.endBarrier
  | PC.finalize | PC.done => true
  | _ => false

/-! ## Lemmas on `logline` and on traces -/

theorem logline_eq (level : Nat) (format : String) (args : List Arg) (s : State) :
    logline level format args s
      = { s with trace := s.trace ++ logged level format args s.gVerbosity } := by
  unfold logline logged emit
  by_cases h : level ≤ s.gVerbosity <;> simp [h]

theorem INFO_eq (fmt : String) (args : List Arg) (s : State) :
    INFO fmt args s =
      { s with trace :=
          s.trace ++ logged verbosity_info ("[ INFO  ] " ++ fmt ++ "\n") args s.gVerbosity } := by
  unfold INFO; exact logline_eq _ _ _ _

theorem DEBUG_eq (fmt : String) (args : List Arg) (s : State) :
    DEBUG fmt args s =
      { s with trace :=
          s.trace ++ logged verbosity_debug ("[ DEBUG ] " ++ fmt ++ "\n") args s.gVerbosity } := by
  unfold DEBUG; exact logline_eq _ _ _ _

theorem ERROR_eq (fmt : String) (args : List Arg) (s : State) :
    ERROR fmt args s =
      { s with trace :=
          s.trace ++ logged verbosity_error ("[ ERROR ] " ++ fmt ++ "\n") args s.gVerbosity } := by
  unfold ERROR; exact logline_eq _ _ _ _

theorem WARNING_eq (fmt : String) (args : List Arg) (s : State) :
    WARNING fmt args s =
      { s with trace :=
          s.trace ++ logged verbosity_warning ("[WARNING] " ++ fmt ++ "\n") args s.gVerbosity } := by
  unfold WARNING; exact logline_eq _ _ _ _

@[simp] theorem observable_logged (level : Nat) (format : String) (args : List Arg) (v : Nat) :
    observable (logged level format args v) = [] := by
  unfold logged observable
  by_cases h : level ≤ v <;> simp [h]

@[simp] theorem observable_append (a b : List Event) :
    observable (a ++ b) = observable a ++ observable b := by
  simp [observable]

@[simp] theorem observable_nil : observable [] = [] := rfl

@[simp] theorem observable_err (f : String) (a : List Arg) (t : List Event) :
    observable (Event.err f a :: t) = observable t := rfl

@[simp] theorem observable_out (f : String) (a : List Arg) (t : List Event) :
    observable (Event.out f a :: t) = Event.out f a :: observable t := rfl

@[simp] theorem observable_startedRound (k : Int) (t : List Event) :
    observable (startedRound k :: t) = startedRound k :: observable t := rfl

@[simp] theorem observable_send (c : Nat) (d : Int) (t : List Event) :
    observable (Event.MPI_Send c d :: t) = Event.MPI_Send c d :: observable t := rfl

@[simp] theorem observable_recv (c : Nat) (d : Int) (t : List Event) :
    observable (Event.MPI_Recv c d :: t) = Event.MPI_Recv c d :: observable t := rfl

@[simp] theorem observable_bcast (c : Nat) (d : Int) (t : List Event) :
    observable (Event.MPI_Bcast c d :: t) = Event.MPI_Bcast c d :: observable t := rfl

@[simp] theorem observable_barrier (t : List Event) :
    observable (Event.MPI_Barrier :: t) = Event.MPI_Barrier :: observable t := rfl

@[simp] theorem observable_finalize (t : List Event) :
    observable (Event.MPI_Finalize :: t) = Event.MPI_Finalize :: observable t := rfl

@[simp] theorem observable_fclose (t : List Event) :
    observable (Event.fclose :: t) = Event.fclose :: observable t := rfl

@[simp] theorem observable_free (t : List Event) :
    observable (Event.free :: t) = Event.free :: observable t := rfl

theorem outLines_observable (t : List Event) : outLines (observable t) = outLines t := by
  induction t with
  | nil => rfl
  | cons e t ih => cases e <;> simp_all [outLines, observable, List.filter_cons]

theorem commCalls_observable (t : List Event) : commCalls (observable t) = commCalls t := by
  induction t with
  | nil => rfl
  | cons e t ih => cases e <;> simp_all [commCalls, observable, List.filter_cons]

theorem sendDests_observable (t : List Event) : sendDests (observable t) = sendDests t := by
  induction t with
  | nil => rfl
  | cons e t ih => cases e <;> simp_all [sendDests, observable, List.filter_cons, List.filterMap_cons]

theorem recvSources_observable (t : List Event) : recvSources (observable t) = recvSources t := by
  induction t with
  | nil => rfl
  | cons e t ih => cases e <;> simp_all [recvSources, observable, List.filter_cons, List.filterMap_cons]

theorem bcastRoots_observable (t : List Event) : bcastRoots (observable t) = bcastRoots t := by
  induction t with
  | nil => rfl
  | cons e t ih => cases e <;> simp_all [bcastRoots, observable, List.filter_cons, List.filterMap_cons]

theorem outLines_append (a b : List Event) : outLines (a ++ b) = outLines a ++ outLines b := by
  simp [outLines]

theorem commCalls_append (a b : List Event) : commCalls (a ++ b) = commCalls a ++ commCalls b := by
  simp [commCalls]

theorem sendDests_append (a b : List Event) : sendDests (a ++ b) = sendDests a ++ sendDests b := by
  simp [sendDests]

theorem recvSources_append (a b : List Event) :
    recvSources (a ++ b) = recvSources a ++ recvSources b := by
  simp [recvSources]

theorem bcastRoots_append (a b : List Event) : bcastRoots (a ++ b) = bcastRoots a ++ bcastRoots b := by
  simp [bcastRoots]

/-! ## Lemmas on `steps` -/

theorem steps_add (a b : Nat) (s : State) : steps (a + b) s = steps b (steps a s) := by
  induction a generalizing s with
  | zero => simp [steps]
  | succ a ih => rw [Nat.succ_add]; simp only [steps]; exact ih (step s)

theorem steps_done (n : Nat) (s : State) (h : s.pc = PC.done) : steps n s = s := by
  induction n with
  | zero => rfl
  | succ n ih =>
    have : step s = s := by unfold step; rw [h]
    simp only [steps, this, ih]

theorem steps_of_le (n0 n : Nat) (s : State) (h : (steps n0 s).pc = PC.done) (hn : n0 ≤ n) :
    steps n s = steps n0 s := by
  obtain ⟨k, rfl⟩ := Nat.exists_eq_add_of_le hn
  rw [steps_add, steps_done k _ h]

/-! ## One step at each place -/

theorem step_startBarrier (s : State) (hpc : s.pc = PC.startBarrier) :
    ∃ evs, step s = { s with pc := PC.dispatch, trace := s.trace ++ evs } ∧
      observable evs = [Event.MPI_Barrier] := by
  refine ⟨(step s).trace.drop s.trace.length, ?_, ?_⟩ <;>
    (unfold step; rw [hpc]; simp only [INFO_eq, emit, List.append_assoc, List.drop_left])
  simp

theorem step_dispatch (s : State) (hpc : s.pc = PC.dispatch) :
    step s =
      if s.gRounds ≠ 0 then
        (if s.gMethod = bounce_method_sendrecv then
          (if s.rank = s.gRootRank then { s with pc := PC.rootCheckSignal }
           else { s with pc := PC.otherCheckSignal })
         else if s.gMethod = bounce_method_broadcast then
           { s with root_rank := s.gRootRank, pc := PC.bcastCheckSignal }
         else { s with pc := PC.loopExited })
      else { s with pc := PC.freeBall } := by
  unfold step; rw [hpc]; simp only []
  cases hm : s.gMethod <;> simp

theorem step_rootCheckSignal (s : State) (hpc : s.pc = PC.rootCheckSignal) :
    step s = if s.gEarlyTermination ≠ 0 then { s with pc := PC.rootReport }
      else { s with pc := PC.rootCheckRounds } := by
  unfold step; rw [hpc]

theorem step_rootCheckRounds (s : State) (hpc : s.pc = PC.rootCheckRounds) :
    step s = if roundsReached s then { s with pc := PC.rootReport }
      else { s with pc := PC.rootSend } := by
  unfold step; rw [hpc]

theorem step_rootSend (s : State) (hpc : s.pc = PC.rootSend) :
    ∃ evs, step s = { s with pc := PC.rootCheckSignalAfterSend, trace := s.trace ++ evs } ∧
      observable evs = [startedRound s.round, Event.MPI_Send s.gSize (cmod (s.rank + 1) s.size)] := by
  refine ⟨(step s).trace.drop s.trace.length, ?_, ?_⟩ <;>
    (unfold step; rw [hpc]; simp only [INFO_eq, emit, List.append_assoc, List.drop_left])
  simp

theorem step_rootCheckSignalAfterSend (s : State) (hpc : s.pc = PC.rootCheckSignalAfterSend) :
    step s = if s.gEarlyTermination ≠ 0 then { s with pc := PC.rootReport }
      else { s with pc := PC.rootRecv } := by
  unfold step; rw [hpc]

theorem step_rootRecv (s : State) (hpc : s.pc = PC.rootRecv) :
    ∃ evs, step s = { s with round := s.round + 1, pc := PC.rootCheckSignal, trace := s.trace ++ evs } ∧
      observable evs = [Event.MPI_Recv s.gSize (cmod (s.rank + s.size - 1) s.size)] := by
  refine ⟨(step s).trace.drop s.trace.length, ?_, ?_⟩ <;>
    (unfold step; rw [hpc]; simp only [INFO_eq, emit, List.append_assoc, List.drop_left])
  simp

theorem step_rootReport (s : State) (hpc : s.pc = PC.rootReport) :
    step s = { s with pc := PC.loopExited, trace := s.trace ++ if s.gEarlyTermination ≠ 0 then [earlyTerminationRecord s] else [] } := by
  unfold step; rw [hpc]; by_cases h : s.gEarlyTermination = 0 <;> simp [h, emit]

theorem step_otherCheckSignal (s : State) (hpc : s.pc = PC.otherCheckSignal) :
    step s = if s.gEarlyTermination ≠ 0 then { s with pc := PC.otherReport }
      else { s with pc := PC.otherCheckRounds } := by
  unfold step; rw [hpc]

theorem step_otherCheckRounds (s : State) (hpc : s.pc = PC.otherCheckRounds) :
    step s = if roundsReached s then { s with pc := PC.otherReport }
      else { s with pc := PC.otherRecv } := by
  unfold step; rw [hpc]

theorem step_otherRecv (s : State) (hpc : s.pc = PC.otherRecv) :
    ∃ evs, step s = { s with pc := PC.otherCheckSignalAfterRecv, trace := s.trace ++ evs } ∧
      observable evs = [Event.MPI_Recv s.gSize (cmod (s.rank + s.size - 1) s.size)] := by
  refine ⟨(step s).trace.drop s.trace.length, ?_, ?_⟩ <;>
    (unfold step; rw [hpc]; simp only [INFO_eq, emit, List.append_assoc, List.drop_left])
  simp

theorem step_otherCheckSignalAfterRecv (s : State) (hpc : s.pc = PC.otherCheckSignalAfterRecv) :
    step s = if s.gEarlyTermination ≠ 0 then { s with pc := PC.otherReport }
      else { s with pc := PC.otherSend } := by
  unfold step; rw [hpc]

theorem step_otherSend (s : State) (hpc : s.pc = PC.otherSend) :
    ∃ evs, step s = { s with round := s.round + 1, pc := PC.otherCheckSignal, trace := s.trace ++ evs } ∧
      observable evs = [Event.MPI_Send s.gSize (cmod (s.rank + 1) s.size)] := by
  refine ⟨(step s).trace.drop s.trace.length, ?_, ?_⟩ <;>
    (unfold step; rw [hpc]; simp only [INFO_eq, emit, List.append_assoc, List.drop_left])
  simp

theorem step_otherReport (s : State) (hpc : s.pc = PC.otherReport) :
    ∃ evs, step s = { s with pc := PC.loopExited, trace := s.trace ++ evs } ∧
      observable evs = [] := by
  refine ⟨(step s).trace.drop s.trace.length, ?_, ?_⟩ <;>
    (unfold step; rw [hpc]; simp only [earlyTerminationInfo, INFO_eq, emit]) <;>
    by_cases h : s.gEarlyTermination = 0 <;> simp [h]

theorem step_bcastCheckSignal (s : State) (hpc : s.pc = PC.bcastCheckSignal) :
    step s = if s.gEarlyTermination ≠ 0 then { s with pc := PC.bcastReport }
      else { s with pc := PC.bcastCheckRounds } := by
  unfold step; rw [hpc]

theorem step_bcastCheckRounds (s : State) (hpc : s.pc = PC.bcastCheckRounds) :
    step s = if roundsReached s then { s with pc := PC.bcastReport }
      else { s with pc := PC.bcastBody } := by
  unfold step; rw [hpc]

theorem step_bcastBody (s : State) (hpc : s.pc = PC.bcastBody) :
    ∃ evs, step s = { s with
        root_rank := cmod (s.root_rank + 1) s.size,
        round := if cmod (s.root_rank + 1) s.size = s.gRootRank then s.round + 1 else s.round,
        pc := PC.bcastCheckSignal,
        trace := s.trace ++ evs } ∧
      observable evs =
        (if s.root_rank = s.gRootRank ∧ s.rank = s.gRootRank then [startedRound s.round] else [])
          ++ [Event.MPI_Bcast s.gSize s.root_rank] := by
  refine ⟨(step s).trace.drop s.trace.length, ?_, ?_⟩ <;>
    obtain ⟨v, f, gr, mr, sz, rds, m, rk, n, rd, rr, fn, pc, t⟩ := s <;>
    simp only at hpc <;>
    subst hpc <;>
    (unfold step; simp only [INFO_eq, emit]) <;>
    by_cases h1 : rr = gr ∧ rk = gr
  · obtain ⟨rfl, rfl⟩ := h1
    split_ifs <;> simp
  · simp only [if_neg h1]
    by_cases h2 : rk = rr <;> by_cases h3 : cmod (rr + 1) n = gr <;> simp [h2, h3]
  · obtain ⟨rfl, rfl⟩ := h1
    split_ifs <;> simp
  · simp only [if_neg h1]
    by_cases h2 : rk = rr <;> by_cases h3 : cmod (rr + 1) n = gr <;> simp [h2, h3]

theorem step_bcastReport (s : State) (hpc : s.pc = PC.bcastReport) :
    ∃ evs, step s = { s with pc := PC.loopExited, trace := s.trace ++ evs } ∧
      observable evs =
        if s.gEarlyTermination ≠ 0 ∧ s.rank = s.gRootRank then [earlyTerminationRecord s] else [] := by
  refine ⟨(step s).trace.drop s.trace.length, ?_, ?_⟩ <;>
    (unfold step; rw [hpc]; simp only [earlyTerminationInfo, earlyTerminationRecord, INFO_eq, emit]) <;>
    by_cases h : s.gEarlyTermination = 0 <;> by_cases h2 : s.rank = s.gRootRank <;> simp [h, h2]

theorem step_loopExited (s : State) (hpc : s.pc = PC.loopExited) :
    ∃ evs, step s = { s with pc := PC.freeBall, trace := s.trace ++ evs } ∧
      observable evs = [] := by
  refine ⟨(step s).trace.drop s.trace.length, ?_, ?_⟩ <;>
    (unfold step; rw [hpc]; simp only [INFO_eq, emit, List.append_assoc, List.drop_left])
  simp

theorem step_freeBall (s : State) (hpc : s.pc = PC.freeBall) :
    ∃ evs, step s = { s with pc := PC.closeOutput, trace := s.trace ++ evs } ∧
      observable evs = [Event.free] := by
  refine ⟨(step s).trace.drop s.trace.length, ?_, ?_⟩ <;>
    (unfold step; rw [hpc]; simp only [INFO_eq, emit, List.append_assoc, List.drop_left])
  simp

theorem step_closeOutput (s : State) (hpc : s.pc = PC.closeOutput) :
    ∃ evs, step s = { s with pc := PC.endBarrier, trace := s.trace ++ evs } ∧
      observable evs =
        if s.rank = s.gRootRank ∧ s.out_filename.isSome then [Event.fclose] else [] := by
  refine ⟨(step s).trace.drop s.trace.length, ?_, ?_⟩ <;>
    (unfold step; rw [hpc]; simp only [INFO_eq, emit]) <;>
    by_cases h : s.rank = s.gRootRank ∧ s.out_filename.isSome <;> simp [h]

theorem step_endBarrier (s : State) (hpc : s.pc = PC.endBarrier) :
    ∃ evs, step s = { s with pc := PC.finalize, trace := s.trace ++ evs } ∧
      observable evs = [Event.MPI_Barrier] := by
  refine ⟨(step s).trace.drop s.trace.length, ?_, ?_⟩ <;>
    (unfold step; rw [hpc]; simp only [INFO_eq, emit, List.append_assoc, List.drop_left])
  simp

theorem step_finalize (s : State) (hpc : s.pc = PC.finalize) :
    ∃ evs, step s = { s with pc := PC.done, trace := s.trace ++ evs } ∧
      observable evs = [Event.MPI_Finalize] := by
  refine ⟨(step s).trace.drop s.trace.length, ?_, ?_⟩ <;>
    (unfold step; rw [hpc]; simp only [INFO_eq, emit, List.append_assoc, List.drop_left])
  simp

/-! ## The ring loops without a signal -/

theorem roundsReached_false (s : State) (h : s.gRounds < 0 ∨ s.round < s.gRounds) :
    roundsReached s = false := by
  unfold roundsReached
  rcases h with h | h
  · have : ¬ (s.gRounds ≥ 0) := by omega
    simp [this]
  · have : ¬ (s.round ≥ s.gRounds) := by omega
    simp [this]

theorem roundsReached_true (s : State) (h0 : 0 ≤ s.gRounds) (h : s.gRounds ≤ s.round) :
    roundsReached s = true := by
  unfold roundsReached
  simp [h0, h]

/-- One round of the root of the ring: lines 369-377. -/
theorem root_round (s : State) (hpc : s.pc = PC.rootCheckSignal)
    (hflag : s.gEarlyTermination = 0) (hr : roundsReached s = false) :
    ∃ evs, steps 5 s = { s with round := s.round + 1, trace := s.trace ++ evs } ∧
      observable evs = [startedRound s.round,
        Event.MPI_Send s.gSize (cmod (s.rank + 1) s.size),
        Event.MPI_Recv s.gSize (cmod (s.rank + s.size - 1) s.size)] := by
  have h1 := step_rootCheckSignal s hpc
  rw [if_neg (by simp [hflag])] at h1
  have h2 := step_rootCheckRounds { s with pc := PC.rootCheckRounds } rfl
  rw [if_neg (by simpa [roundsReached] using hr)] at h2
  obtain ⟨e3, h3, o3⟩ := step_rootSend { s with pc := PC.rootSend } rfl
  have h4 := step_rootCheckSignalAfterSend
    { s with pc := PC.rootCheckSignalAfterSend, trace := s.trace ++ e3 } rfl
  rw [if_neg (by simp [hflag])] at h4
  obtain ⟨e5, h5, o5⟩ := step_rootRecv { s with pc := PC.rootRecv, trace := s.trace ++ e3 } rfl
  refine ⟨e3 ++ e5, ?_, ?_⟩
  · simp only [steps, h1, h2, h3, h4, h5, List.append_assoc]
    obtain ⟨v, f, gr, mr, sz, rds, m, rk, n, rd, rr, fn, pc, t⟩ := s
    simp only at hpc
    subst hpc
    rfl
  · simp only [observable_append, o3, o5]; rfl

/-- One round of a rank of the ring that is not the root: lines 385-392. -/
theorem other_round (s : State) (hpc : s.pc = PC.otherCheckSignal)
    (hflag : s.gEarlyTermination = 0) (hr : roundsReached s = false) :
    ∃ evs, steps 5 s = { s with round := s.round + 1, trace := s.trace ++ evs } ∧
      observable evs = [Event.MPI_Recv s.gSize (cmod (s.rank + s.size - 1) s.size),
        Event.MPI_Send s.gSize (cmod (s.rank + 1) s.size)] := by
  have h1 := step_otherCheckSignal s hpc
  rw [if_neg (by simp [hflag])] at h1
  have h2 := step_otherCheckRounds { s with pc := PC.otherCheckRounds } rfl
  rw [if_neg (by simpa [roundsReached] using hr)] at h2
  obtain ⟨e3, h3, o3⟩ := step_otherRecv { s with pc := PC.otherRecv } rfl
  have h4 := step_otherCheckSignalAfterRecv
    { s with pc := PC.otherCheckSignalAfterRecv, trace := s.trace ++ e3 } rfl
  rw [if_neg (by simp [hflag])] at h4
  obtain ⟨e5, h5, o5⟩ := step_otherSend { s with pc := PC.otherSend, trace := s.trace ++ e3 } rfl
  refine ⟨e3 ++ e5, ?_, ?_⟩
  · simp only [steps, h1, h2, h3, h4, h5, List.append_assoc]
    obtain ⟨v, f, gr, mr, sz, rds, m, rk, n, rd, rr, fn, pc, t⟩ := s
    simp only at hpc
    subst hpc
    rfl
  · simp only [observable_append, o3, o5]; rfl

/-- The loop of the root of the ring runs `m` rounds when no signal comes and
the round target allows them. -/
theorem root_loop (m : Nat) (s : State) (hpc : s.pc = PC.rootCheckSignal)
    (hflag : s.gEarlyTermination = 0) (hm : s.gRounds < 0 ∨ s.round + m ≤ s.gRounds) :
    ∃ evs, steps (5 * m) s = { s with round := s.round + m, trace := s.trace ++ evs } ∧
      observable evs = roundsFrom (rootRoundEvents s.gSize s.rank s.size) s.round m := by
  induction m with
  | zero => exact ⟨[], by simp [steps], rfl⟩
  | succ m ih =>
    obtain ⟨e1, h1, o1⟩ := ih (by omega)
    obtain ⟨e2, h2, o2⟩ := root_round { s with round := s.round + m, trace := s.trace ++ e1 }
      hpc hflag (roundsReached_false _ (by simp only []; omega))
    refine ⟨e1 ++ e2, ?_, ?_⟩
    · rw [Nat.mul_succ, steps_add, h1, h2]
      simp only [List.append_assoc, Nat.cast_add, Nat.cast_one, add_assoc]
    · rw [observable_append, o1, o2]; rfl

/-- The loop of another rank of the ring runs `m` rounds when no signal comes
and the round target allows them. -/
theorem other_loop (m : Nat) (s : State) (hpc : s.pc = PC.otherCheckSignal)
    (hflag : s.gEarlyTermination = 0) (hm : s.gRounds < 0 ∨ s.round + m ≤ s.gRounds) :
    ∃ evs, steps (5 * m) s = { s with round := s.round + m, trace := s.trace ++ evs } ∧
      observable evs = roundsFrom (otherRoundEvents s.gSize s.rank s.size) s.round m := by
  induction m with
  | zero => exact ⟨[], by simp [steps], rfl⟩
  | succ m ih =>
    obtain ⟨e1, h1, o1⟩ := ih (by omega)
    obtain ⟨e2, h2, o2⟩ := other_round { s with round := s.round + m, trace := s.trace ++ e1 }
      hpc hflag (roundsReached_false _ (by simp only []; omega))
    refine ⟨e1 ++ e2, ?_, ?_⟩
    · rw [Nat.mul_succ, steps_add, h1, h2]
      simp only [List.append_assoc, Nat.cast_add, Nat.cast_one, add_assoc]
    · rw [observable_append, o1, o2]; rfl

/-- Lines 432-449: from the exit of the loops to `return 0`. -/
theorem tail_from_loopExited (s : State) (hpc : s.pc = PC.loopExited) :
    ∃ evs, steps 5 s = { s with pc := PC.done, trace := s.trace ++ evs } ∧
      observable evs = [Event.free] ++
        (if s.rank = s.gRootRank ∧ s.out_filename.isSome then [Event.fclose] else []) ++
        [Event.MPI_Barrier, Event.MPI_Finalize] := by
  obtain ⟨e1, h1, o1⟩ := step_loopExited s hpc
  obtain ⟨e2, h2, o2⟩ := step_freeBall { s with pc := PC.freeBall, trace := s.trace ++ e1 } rfl
  obtain ⟨e3, h3, o3⟩ := step_closeOutput
    { s with pc := PC.closeOutput, trace := s.trace ++ e1 ++ e2 } rfl
  obtain ⟨e4, h4, o4⟩ := step_endBarrier
    { s with pc := PC.endBarrier, trace := s.trace ++ e1 ++ e2 ++ e3 } rfl
  obtain ⟨e5, h5, o5⟩ := step_finalize
    { s with pc := PC.finalize, trace := s.trace ++ e1 ++ e2 ++ e3 ++ e4 } rfl
  refine ⟨e1 ++ e2 ++ e3 ++ e4 ++ e5, ?_, ?_⟩
  · simp only [] at h2 h3 h4 h5
    simp only [steps]
    rw [h1, h2, h3, h4, h5]
    simp only [List.append_assoc]
  · simp only [observable_append, o1, o2, o3, o4, o5]; simp

/-- Lines 435-449: from `free(the_ball)` to `return 0`. -/
theorem tail_from_freeBall (s : State) (hpc : s.pc = PC.freeBall) :
    ∃ evs, steps 4 s = { s with pc := PC.done, trace := s.trace ++ evs } ∧
      observable evs = [Event.free] ++
        (if s.rank = s.gRootRank ∧ s.out_filename.isSome then [Event.fclose] else []) ++
        [Event.MPI_Barrier, Event.MPI_Finalize] := by
  obtain ⟨e2, h2, o2⟩ := step_freeBall s hpc
  obtain ⟨e3, h3, o3⟩ := step_closeOutput
    { s with pc := PC.closeOutput, trace := s.trace ++ e2 } rfl
  obtain ⟨e4, h4, o4⟩ := step_endBarrier
    { s with pc := PC.endBarrier, trace := s.trace ++ e2 ++ e3 } rfl
  obtain ⟨e5, h5, o5⟩ := step_finalize
    { s with pc := PC.finalize, trace := s.trace ++ e2 ++ e3 ++ e4 } rfl
  refine ⟨e2 ++ e3 ++ e4 ++ e5, ?_, ?_⟩
  · simp only [] at h3 h4 h5
    simp only [steps]
    rw [h2, h3, h4, h5]
    simp only [List.append_assoc]
  · simp only [observable_append, o2, o3, o4, o5]; simp

/-! ## Whole runs of the ring without a signal -/

theorem outLines_rootRounds (g : Nat) (r n : Int) (m : Nat) :
    outLines (roundsFrom (rootRoundEvents g r n) 0 m)
      = (List.range m).map (fun (k : Nat) => startedRound (k : Int)) := by
  induction m with
  | zero => rfl
  | succ m ih =>
    simp only [roundsFrom, outLines_append, ih, List.range_succ, List.map_append, List.map_cons,
      List.map_nil, zero_add]
    rfl

theorem sendDests_rootRounds (g : Nat) (r n : Int) (k : Int) (m : Nat) :
    sendDests (roundsFrom (rootRoundEvents g r n) k m)
      = List.replicate m (cmod (r + 1) n) := by
  induction m with
  | zero => rfl
  | succ m ih =>
    simp only [roundsFrom, sendDests_append, ih, List.replicate_succ']
    rfl

theorem recvSources_rootRounds (g : Nat) (r n : Int) (k : Int) (m : Nat) :
    recvSources (roundsFrom (rootRoundEvents g r n) k m)
      = List.replicate m (cmod (r + n - 1) n) := by
  induction m with
  | zero => rfl
  | succ m ih =>
    simp only [roundsFrom, recvSources_append, ih, List.replicate_succ']
    rfl

theorem outLines_otherRounds (g : Nat) (r n : Int) (k : Int) (m : Nat) :
    outLines (roundsFrom (otherRoundEvents g r n) k m) = [] := by
  induction m with
  | zero => rfl
  | succ m ih =>
    simp only [roundsFrom, outLines_append, ih]
    rfl

theorem sendDests_otherRounds (g : Nat) (r n : Int) (k : Int) (m : Nat) :
    sendDests (roundsFrom (otherRoundEvents g r n) k m)
      = List.replicate m (cmod (r + 1) n) := by
  induction m with
  | zero => rfl
  | succ m ih =>
    simp only [roundsFrom, sendDests_append, ih, List.replicate_succ']
    rfl

theorem recvSources_otherRounds (g : Nat) (r n : Int) (k : Int) (m : Nat) :
    recvSources (roundsFrom (otherRoundEvents g r n) k m)
      = List.replicate m (cmod (r + n - 1) n) := by
  induction m with
  | zero => rfl
  | succ m ih =>
    simp only [roundsFrom, recvSources_append, ih, List.replicate_succ']
    rfl

theorem steps_one (s : State) : steps 1 s = step s := rfl

/-- The run of the root of the ring from the start barrier, with a round target
`m ≥ 1` and no signal: `5 * m + 10` steps. -/
theorem ring_root_run (s : State) (m : Nat) (hpc : s.pc = PC.startBarrier)
    (hmethod : s.gMethod = bounce_method_sendrecv) (hrank : s.rank = s.gRootRank)
    (hround : s.round = 0) (hflag : s.gEarlyTermination = 0)
    (hrounds : s.gRounds = m) (hm : 1 ≤ m) :
    ∃ evs, steps (5 * m + 10) s = { s with round := m, pc := PC.done, trace := s.trace ++ evs } ∧
      observable evs = [Event.MPI_Barrier] ++ roundsFrom (rootRoundEvents s.gSize s.rank s.size) 0 m ++ closing s := by
  obtain ⟨e1, h1, o1⟩ := step_startBarrier s hpc
  have h2 := step_dispatch { s with pc := PC.dispatch, trace := s.trace ++ e1 } rfl
  simp only [] at h2
  rw [if_pos (by omega), if_pos hmethod, if_pos hrank] at h2
  obtain ⟨e3, h3, o3⟩ := root_loop m { s with pc := PC.rootCheckSignal, trace := s.trace ++ e1 }
    rfl hflag (Or.inr (by simp only [hround, hrounds]; omega))
  simp only [] at h3
  have h4 := step_rootCheckSignal
    { s with round := s.round + m, pc := PC.rootCheckSignal, trace := s.trace ++ e1 ++ e3 } rfl
  simp only [] at h4
  rw [if_neg (by simp [hflag])] at h4
  have h5 := step_rootCheckRounds
    { s with round := s.round + m, pc := PC.rootCheckRounds, trace := s.trace ++ e1 ++ e3 } rfl
  rw [if_pos (roundsReached_true _ (by simp only [hrounds]; omega)
    (by simp only [hrounds, hround]; omega))] at h5
  simp only [] at h5
  have h6 := step_rootReport
    { s with round := s.round + m, pc := PC.rootReport, trace := s.trace ++ e1 ++ e3 } rfl
  simp only [] at h6
  rw [if_neg (by simp [hflag]), List.append_nil] at h6
  obtain ⟨e7, h7, o7⟩ := tail_from_loopExited
    { s with round := s.round + m, pc := PC.loopExited, trace := s.trace ++ e1 ++ e3 } rfl
  simp only [] at h7
  refine ⟨e1 ++ e3 ++ e7, ?_, ?_⟩
  · have e : 5 * m + 10 = 1 + (1 + (5 * m + (1 + (1 + (1 + 5))))) := by omega
    rw [e, steps_add, steps_add, steps_add, steps_add, steps_add, steps_add]
    simp only [steps_one]
    rw [h1, h2, h3, h4, h5, h6, h7]
    simp only [List.append_assoc, hround, zero_add]
  · simp only [observable_append, o1, o3, o7, closing, hround]

/-- The run of another rank of the ring from the start barrier, with a round
target `m ≥ 1` and no signal: `5 * m + 10` steps. -/
theorem ring_other_run (s : State) (m : Nat) (hpc : s.pc = PC.startBarrier)
    (hmethod : s.gMethod = bounce_method_sendrecv) (hrank : s.rank ≠ s.gRootRank)
    (hround : s.round = 0) (hflag : s.gEarlyTermination = 0)
    (hrounds : s.gRounds = m) (hm : 1 ≤ m) :
    ∃ evs, steps (5 * m + 10) s = { s with round := m, pc := PC.done, trace := s.trace ++ evs } ∧
      observable evs = [Event.MPI_Barrier] ++
        roundsFrom (otherRoundEvents s.gSize s.rank s.size) 0 m ++ closing s := by
  obtain ⟨e1, h1, o1⟩ := step_startBarrier s hpc
  have h2 := step_dispatch { s with pc := PC.dispatch, trace := s.trace ++ e1 } rfl
  simp only [] at h2
  rw [if_pos (by omega), if_pos hmethod, if_neg hrank] at h2
  obtain ⟨e3, h3, o3⟩ := other_loop m { s with pc := PC.otherCheckSignal, trace := s.trace ++ e1 }
    rfl hflag (Or.inr (by simp only [hround, hrounds]; omega))
  simp only [] at h3
  have h4 := step_otherCheckSignal
    { s with round := s.round + m, pc := PC.otherCheckSignal, trace := s.trace ++ e1 ++ e3 } rfl
  simp only [] at h4
  rw [if_neg (by simp [hflag])] at h4
  have h5 := step_otherCheckRounds
    { s with round := s.round + m, pc := PC.otherCheckRounds, trace := s.trace ++ e1 ++ e3 } rfl
  rw [if_pos (roundsReached_true _ (by simp only [hrounds]; omega)
    (by simp only [hrounds, hround]; omega))] at h5
  simp only [] at h5
  obtain ⟨e6, h6, o6⟩ := step_otherReport
    { s with round := s.round + m, pc := PC.otherReport, trace := s.trace ++ e1 ++ e3 } rfl
  simp only [] at h6
  obtain ⟨e7, h7, o7⟩ := tail_from_loopExited
    { s with round := s.round + m, pc := PC.loopExited, trace := s.trace ++ e1 ++ e3 ++ e6 } rfl
  simp only [] at h7
  refine ⟨e1 ++ e3 ++ e6 ++ e7, ?_, ?_⟩
  · have e : 5 * m + 10 = 1 + (1 + (5 * m + (1 + (1 + (1 + 5))))) := by omega
    rw [e, steps_add, steps_add, steps_add, steps_add, steps_add, steps_add]
    simp only [steps_one]
    rw [h1, h2, h3, h4, h5, h6, h7]
    simp only [List.append_assoc, hround, zero_add]
  · simp only [observable_append, o1, o3, o6, o7, closing, hround, List.append_nil]

theorem outLines_closing (s : State) : outLines (closing s) = [] := by
  unfold closing
  by_cases h : s.rank = s.gRootRank ∧ s.out_filename.isSome <;> simp [h, outLines]

theorem sendDests_closing (s : State) : sendDests (closing s) = [] := by
  unfold closing
  by_cases h : s.rank = s.gRootRank ∧ s.out_filename.isSome <;> simp [h, sendDests]

theorem recvSources_closing (s : State) : recvSources (closing s) = [] := by
  unfold closing
  by_cases h : s.rank = s.gRootRank ∧ s.out_filename.isSome <;> simp [h, recvSources]

theorem bcastRoots_closing (s : State) : bcastRoots (closing s) = [] := by
  unfold closing
  by_cases h : s.rank = s.gRootRank ∧ s.out_filename.isSome <;> simp [h, bcastRoots]

theorem commCalls_closing (s : State) : commCalls (closing s) = [Event.MPI_Barrier] := by
  unfold closing
  by_cases h : s.rank = s.gRootRank ∧ s.out_filename.isSome <;> simp [h, commCalls]

/-- On ranks of a communicator, `%` of C is the mathematical remainder, and the
predecessor of the successor of a rank is the rank. -/
theorem ring_neighbours (r n : Int) (hr0 : 0 ≤ r) (hr1 : r < n) :
    cmod (r + 1) n = (r + 1) % n ∧ cmod (r + n - 1) n = (r - 1 + n) % n ∧
      cmod (cmod (r + 1) n + n - 1) n = r := by
  have e1 : cmod (r + 1) n = (r + 1) % n := Int.tmod_eq_emod (by omega) (by omega)
  have e2 : cmod (r + n - 1) n = (r - 1 + n) % n := by
    have : r + n - 1 = r - 1 + n := by ring
    unfold cmod
    rw [this]
    exact Int.tmod_eq_emod (by omega) (by omega)
  refine ⟨e1, e2, ?_⟩
  rw [e1]
  have hpos : 0 ≤ (r + 1) % n := Int.emod_nonneg _ (by omega)
  unfold cmod
  rw [Int.tmod_eq_emod (by omega) (by omega)]
  by_cases h : r + 1 < n
  · rw [Int.emod_eq_of_lt (by omega) h]
    have : r + 1 + n - 1 = r + n := by ring
    rw [this, Int.add_emod_self]
    exact Int.emod_eq_of_lt hr0 hr1
  · have hn : r + 1 = n := by omega
    rw [hn, Int.emod_self]
    have : (0 : Int) + n - 1 = n - 1 := by ring
    rw [this]
    rw [Int.emod_eq_of_lt (by omega) (by omega)]
    omega

/-- The ring arithmetic of lines 372 and 375 stays within `int` for every
communicator of at most `2 ^ 30` ranks. -/
theorem ring_arith_in_int_range (r n : Int) (hr0 : 0 ≤ r) (hr1 : r < n) (hn : n ≤ 2 ^ 30) :
    0 ≤ r + 1 ∧ r + 1 ≤ INT_MAX ∧ 0 ≤ r + n - 1 ∧ r + n - 1 ≤ INT_MAX ∧ 0 ≤ r + n ∧
      r + n ≤ INT_MAX := by
  unfold INT_MAX
  norm_num at hn
  omega

/-! ## The claims on the ring relay -/

/-- C1. Ring relay, on the designated root, with a round target `Rmax ≥ 1` and
no signal: from the start barrier the run ends (after `5 * Rmax + 10` steps it
is at `return 0` and stays there), the round counter is then exactly `Rmax`,
and what the root wrote to `out_fptr` is exactly the lines `Started round k`
for `k = 0, ..., Rmax - 1`, in that order, with no termination record after
them.  This holds for every process count and every root, so for `N ≥ 2` and a
root in `[0, N)`. -/
theorem ring_root_counts_rounds (s : State) (hpc : s.pc = PC.startBarrier)
    (hmethod : s.gMethod = bounce_method_sendrecv) (hrank : s.rank = s.gRootRank)
    (hround : s.round = 0) (hflag : s.gEarlyTermination = 0) (hRmax : 1 ≤ s.gRounds)
    (n : Nat) (hn : 5 * s.gRounds.toNat + 10 ≤ n) :
    (steps n s).pc = PC.done ∧ (steps n s).round = s.gRounds ∧
      outLines (steps n s).trace
        = outLines s.trace ++ (List.range s.gRounds.toNat).map
            (fun (k : Nat) => Event.out "Started round %lld\n" [Arg.int (k : Int)]) := by
  have hm : s.gRounds = (s.gRounds.toNat : Int) := (Int.toNat_of_nonneg (by omega)).symm
  obtain ⟨evs, h, o⟩ := ring_root_run s s.gRounds.toNat hpc hmethod hrank hround hflag hm (by omega)
  have hdone : (steps (5 * s.gRounds.toNat + 10) s).pc = PC.done := by rw [h]
  rw [steps_of_le _ n s hdone hn, h]
  refine ⟨rfl, hm.symm, ?_⟩
  simp only []
  rw [outLines_append, ← outLines_observable evs, o]
  simp only [outLines_append, outLines_rootRounds, outLines_closing, List.append_nil]
  rfl

/-- C1, on the run of scenario A: four ranks, root 0, three rounds. -/
theorem ring_root_counts_rounds_witness :
    (steps 25 { initialState 0 4 with gRounds := 3 }).pc = PC.done ∧
      (steps 25 { initialState 0 4 with gRounds := 3 }).round = 3 ∧
      outLines (steps 25 { initialState 0 4 with gRounds := 3 }).trace
        = [] ++ (List.range 3).map
            (fun (k : Nat) => Event.out "Started round %lld\n" [Arg.int (k : Int)]) :=
  ring_root_counts_rounds { initialState 0 4 with gRounds := 3 } rfl rfl rfl rfl rfl
    (by decide) 25 (by decide)

theorem ring_rank_calls (s : State) (hs : atRingStart s) (hRmax : 1 ≤ s.gRounds)
    (n : Nat) (hn : 5 * s.gRounds.toNat + 10 ≤ n) :
    (steps n s).pc = PC.done ∧
      sendDests (steps n s).trace = List.replicate s.gRounds.toNat (cmod (s.rank + 1) s.size) ∧
      recvSources (steps n s).trace
        = List.replicate s.gRounds.toNat (cmod (s.rank + s.size - 1) s.size) := by
  obtain ⟨hpc, hmethod, hround, hflag, hsend, hrecv⟩ := hs
  have hm : s.gRounds = (s.gRounds.toNat : Int) := (Int.toNat_of_nonneg (by omega)).symm
  by_cases hrank : s.rank = s.gRootRank
  · obtain ⟨evs, h, o⟩ := ring_root_run s s.gRounds.toNat hpc hmethod hrank hround hflag hm (by omega)
    have hdone : (steps (5 * s.gRounds.toNat + 10) s).pc = PC.done := by rw [h]
    rw [steps_of_le _ n s hdone hn, h]
    refine ⟨rfl, ?_, ?_⟩
    · simp only []
      rw [sendDests_append, ← sendDests_observable evs, o, hsend]
      simp only [sendDests_append, sendDests_rootRounds, sendDests_closing, List.append_nil]
      rfl
    · simp only []
      rw [recvSources_append, ← recvSources_observable evs, o, hrecv]
      simp only [recvSources_append, recvSources_rootRounds, recvSources_closing, List.append_nil]
      rfl
  · obtain ⟨evs, h, o⟩ := ring_other_run s s.gRounds.toNat hpc hmethod hrank hround hflag hm (by omega)
    have hdone : (steps (5 * s.gRounds.toNat + 10) s).pc = PC.done := by rw [h]
    rw [steps_of_le _ n s hdone hn, h]
    refine ⟨rfl, ?_, ?_⟩
    · simp only []
      rw [sendDests_append, ← sendDests_observable evs, o, hsend]
      simp only [sendDests_append, sendDests_otherRounds, sendDests_closing, List.append_nil]
      rfl
    · simp only []
      rw [recvSources_append, ← recvSources_observable evs, o, hrecv]
      simp only [recvSources_append, recvSources_otherRounds, recvSources_closing, List.append_nil]
      rfl

/-- C2. Ring relay with `N` ranks, a round target `Rmax ≥ 1` and no signal (for
every `N` that has a rank, so for `N ≥ 2`; the sums `rank + 1` and
`rank + size - 1` are those of `ring_arith_in_int_range`).
Let `s` be any rank `r` in `[0, N)` at the start barrier (root or not) and `t`
the rank `(r + 1) mod N`.  Both runs end; `r` performs exactly `Rmax` sends,
each to `(r + 1) mod N`, and exactly `Rmax` receives, each from
`(r + N - 1) mod N`; the predecessor of `(r + 1) mod N` is `r`, so every
receive of `t` is from `r`, and the sends of `r` on the edge to `t` are as many
as the receives that `t` posts for source `r`. -/
theorem ring_sends_match_receives (s t : State) (hs : atRingStart s) (ht : atRingStart t)
    (hr0 : 0 ≤ s.rank) (hr1 : s.rank < s.size) (hRmax : 1 ≤ s.gRounds)
    (hsize : t.size = s.size) (hrounds : t.gRounds = s.gRounds)
    (hsucc : t.rank = cmod (s.rank + 1) s.size)
    (n : Nat) (hn : 5 * s.gRounds.toNat + 10 ≤ n) :
    (steps n s).pc = PC.done ∧ (steps n t).pc = PC.done ∧
      sendDests (steps n s).trace = List.replicate s.gRounds.toNat ((s.rank + 1) % s.size) ∧
      recvSources (steps n s).trace
        = List.replicate s.gRounds.toNat ((s.rank - 1 + s.size) % s.size) ∧
      t.rank = (s.rank + 1) % s.size ∧
      recvSources (steps n t).trace = List.replicate s.gRounds.toNat s.rank ∧
      (sendDests (steps n s).trace).count t.rank = s.gRounds.toNat ∧
      (recvSources (steps n t).trace).count s.rank = s.gRounds.toNat := by
  obtain ⟨n1, n2, n3⟩ := ring_neighbours s.rank s.size hr0 hr1
  obtain ⟨d1, s1, r1⟩ := ring_rank_calls s hs hRmax n hn
  obtain ⟨d2, _, r2⟩ := ring_rank_calls t ht (by omega) n (by rw [hrounds]; exact hn)
  rw [hrounds, hsize, hsucc, n3] at r2
  rw [n1] at s1
  rw [n2] at r1
  rw [n1] at hsucc
  refine ⟨d1, d2, s1, r1, hsucc, r2, ?_, ?_⟩
  · rw [s1, hsucc]; simp
  · rw [r2]; simp

/-- C2, on ranks 3 and 0 of four, root 0, three rounds. -/
theorem ring_sends_match_receives_witness :
    (steps 25 { initialState 3 4 with gRounds := 3 }).pc = PC.done ∧
      (steps 25 { initialState 0 4 with gRounds := 3 }).pc = PC.done ∧
      sendDests (steps 25 { initialState 3 4 with gRounds := 3 }).trace
        = List.replicate 3 (((3 : Int) + 1) % 4) ∧
      recvSources (steps 25 { initialState 3 4 with gRounds := 3 }).trace
        = List.replicate 3 (((3 : Int) - 1 + 4) % 4) ∧
      (0 : Int) = (3 + 1) % 4 ∧
      recvSources (steps 25 { initialState 0 4 with gRounds := 3 }).trace = List.replicate 3 3 ∧
      (sendDests (steps 25 { initialState 3 4 with gRounds := 3 }).trace).count 0 = 3 ∧
      (recvSources (steps 25 { initialState 0 4 with gRounds := 3 }).trace).count 3 = 3 :=
  ring_sends_match_receives { initialState 3 4 with gRounds := 3 }
    { initialState 0 4 with gRounds := 3 }
    ⟨rfl, rfl, rfl, rfl, rfl, rfl⟩ ⟨rfl, rfl, rfl, rfl, rfl, rfl⟩
    (by decide) (by decide) (by decide) rfl rfl (by decide) 25 (by decide)

/-! ## The rotating broadcast without a signal -/

theorem rotate_back_iff (g N j : Nat) (hg : g < N) : (g + j) % N = g ↔ N ∣ j := by
  constructor
  · intro h
    have h1 : (g + j) % N = (g + 0) % N := by rw [h, Nat.add_zero, Nat.mod_eq_of_lt hg]
    have h2 : j % N = 0 % N := Nat.ModEq.add_left_cancel' g h1
    exact Nat.dvd_of_mod_eq_zero (by simpa using h2)
  · rintro ⟨k, rfl⟩
    rw [Nat.add_mul_mod_self_left, Nat.mod_eq_of_lt hg]

theorem cmod_succ_cast (g N j : Nat) :
    cmod (((g + j) % N : Nat) + 1) (N : Int) = (((g + (j + 1)) % N : Nat) : Int) := by
  unfold cmod
  rw [Int.tmod_eq_emod (by omega) (by omega)]
  have : (((g + j) % N : Nat) : Int) + 1 = (((g + j) % N + 1 : Nat) : Int) := by push_cast; rfl
  rw [this, ← Int.natCast_mod]
  congr 1
  rw [← Nat.add_assoc, Nat.add_mod (g + j) 1 N]
  simp

/-- One step of the rotating broadcast: lines 405-420. -/
theorem bcast_step (s : State) (hpc : s.pc = PC.bcastCheckSignal)
    (hflag : s.gEarlyTermination = 0) (hr : roundsReached s = false) :
    ∃ evs, steps 3 s = { s with
        root_rank := cmod (s.root_rank + 1) s.size,
        round := if cmod (s.root_rank + 1) s.size = s.gRootRank then s.round + 1 else s.round,
        trace := s.trace ++ evs } ∧
      observable evs =
        (if s.root_rank = s.gRootRank ∧ s.rank = s.gRootRank then [startedRound s.round] else [])
          ++ [Event.MPI_Bcast s.gSize s.root_rank] := by
  have h1 := step_bcastCheckSignal s hpc
  rw [if_neg (by simp [hflag])] at h1
  have h2 := step_bcastCheckRounds { s with pc := PC.bcastCheckRounds } rfl
  rw [if_neg (by simpa [roundsReached] using hr)] at h2
  obtain ⟨e3, h3, o3⟩ := step_bcastBody { s with pc := PC.bcastBody } rfl
  simp only [] at h3 o3
  refine ⟨e3, ?_, o3⟩
  simp only [steps]
  rw [h1, h2, h3]
  obtain ⟨v, f, gr, mr, sz, rds, m, rk, n, rd, rr, fn, pc, t⟩ := s
  simp only at hpc
  subst hpc
  rfl

/-- The loop of the rotating broadcast runs `j` steps when no signal comes and
the round target allows them. -/
theorem bcast_loop (g N : Nat) (hN : 0 < N) (hg : g < N) (j : Nat) (s : State)
    (hpc : s.pc = PC.bcastCheckSignal) (hflag : s.gEarlyTermination = 0)
    (hsize : s.size = N) (hgr : s.gRootRank = g) (hrr : s.root_rank = g)
    (hround : s.round = 0) (hj : s.gRounds < 0 ∨ (j : Int) ≤ N * s.gRounds) :
    ∃ evs, steps (3 * j) s = { s with
        root_rank := (((g + j) % N : Nat) : Int),
        round := ((j / N : Nat) : Int),
        trace := s.trace ++ evs } ∧
      observable evs = bcastEvents s.gSize s.rank g N j := by
  induction j with
  | zero =>
    refine ⟨[], ?_, rfl⟩
    obtain ⟨v, f, gr, mr, sz, rds, m, rk, n, rd, rr, fn, pc, t⟩ := s
    simp only at hpc hrr hround
    subst hpc hrr hround
    simp [steps, Nat.mod_eq_of_lt hg]
  | succ j ih =>
    obtain ⟨e1, h1, o1⟩ := ih (by omega)
    have hlt : s.gRounds < 0 ∨ ((j / N : Nat) : Int) < s.gRounds := by
      rcases hj with hj | hj
      · exact Or.inl hj
      · right
        rw [Int.natCast_div]
        apply Int.ediv_lt_of_lt_mul (by omega)
        rw [mul_comm]
        push_cast at hj
        omega
    obtain ⟨e2, h2, o2⟩ := bcast_step
      { s with root_rank := (((g + j) % N : Nat) : Int), round := ((j / N : Nat) : Int),
               trace := s.trace ++ e1 }
      hpc hflag (roundsReached_false _ hlt)
    simp only [] at h2 o2
    refine ⟨e1 ++ e2, ?_, ?_⟩
    · rw [Nat.mul_succ, steps_add, h1, h2, hsize, hgr, cmod_succ_cast]
      have hround : (if (((g + (j + 1)) % N : Nat) : Int) = (g : Int) then ((j / N : Nat) : Int) + 1
          else ((j / N : Nat) : Int)) = (((j + 1) / N : Nat) : Int) := by
        rw [Nat.succ_div]
        by_cases hd : N ∣ j + 1
        · have := (rotate_back_iff g N (j + 1) hg).2 hd
          rw [this, if_pos rfl, if_pos hd]
          push_cast
          rfl
        · have : ¬ ((g + (j + 1)) % N = g) := fun h => hd ((rotate_back_iff g N (j + 1) hg).1 h)
          have h3 : ¬ ((((g + (j + 1)) % N : Nat) : Int) = (g : Int)) := by
            intro h; exact this (by exact_mod_cast h)
          rw [if_neg h3, if_neg hd, Nat.add_zero]
      rw [hround]
      simp only [List.append_assoc]
    · rw [observable_append, o1, o2, hgr]
      simp only [bcastEvents, List.append_assoc]
      congr 2
      by_cases hd : N ∣ j
      · have := (rotate_back_iff g N j hg).2 hd
        rw [this]
        by_cases hk : s.rank = (g : Int)
        · rw [if_pos ⟨rfl, hk⟩, if_pos ⟨hd, hk⟩]
        · rw [if_neg (fun h => hk h.2), if_neg (fun h => hk h.2)]
      · have : ¬ ((g + j) % N = g) := fun h => hd ((rotate_back_iff g N j hg).1 h)
        have h3 : ¬ ((((g + j) % N : Nat) : Int) = (g : Int)) := by
          intro h; exact this (by exact_mod_cast h)
        rw [if_neg (fun h => h3 h.1), if_neg (fun h => hd h.1)]

theorem bcastRoots_bcastEvents (gSize : Nat) (rank : Int) (g N j : Nat) :
    bcastRoots (bcastEvents gSize rank g N j)
      = (List.range j).map (fun (i : Nat) => (((g + i) % N : Nat) : Int)) := by
  induction j with
  | zero => rfl
  | succ j ih =>
    simp only [bcastEvents, bcastRoots_append, ih, List.range_succ, List.map_append, List.map_cons,
      List.map_nil]
    by_cases h : N ∣ j ∧ rank = (g : Int) <;> simp [h, bcastRoots, startedRound]

theorem ceil_div_succ (N j : Nat) (hN : 0 < N) :
    (j + 1 + (N - 1)) / N = (j + (N - 1)) / N + (if N ∣ j then 1 else 0) := by
  have e1 : j + 1 + (N - 1) = j + N := by omega
  rw [e1, Nat.add_div_right j hN]
  rcases Nat.eq_zero_or_pos j with h0 | hpos
  · subst h0
    simp [Nat.div_eq_of_lt (show N - 1 < N by omega)]
  · have e2 : j + (N - 1) = (j - 1) + N := by omega
    rw [e2, Nat.add_div_right (j - 1) hN]
    have e3 : j = (j - 1) + 1 := by omega
    have := Nat.succ_div (j - 1) N
    rw [← e3] at this
    rw [this]
    by_cases hd : N ∣ j <;> simp [hd]

theorem div_eq_ceil_of_dvd (N j : Nat) (hN : 0 < N) (hd : N ∣ j) : j / N = (j + (N - 1)) / N := by
  obtain ⟨k, rfl⟩ := hd
  rw [Nat.mul_div_cancel_left k hN, Nat.mul_add_div hN, Nat.div_eq_of_lt (show N - 1 < N by omega)]
  rfl

theorem outLines_bcastEvents (gSize : Nat) (rank : Int) (g N j : Nat) (hN : 0 < N) :
    outLines (bcastEvents gSize rank g N j)
      = if rank = (g : Int) then
          (List.range ((j + (N - 1)) / N)).map (fun (k : Nat) => startedRound (k : Int))
        else [] := by
  induction j with
  | zero =>
    simp [bcastEvents, outLines, Nat.div_eq_of_lt (show N - 1 < N by omega)]
  | succ j ih =>
    simp only [bcastEvents, outLines_append, ih]
    by_cases hk : rank = (g : Int)
    · simp only [hk, if_true, and_true]
      rw [ceil_div_succ N j hN]
      by_cases hd : N ∣ j
      · simp only [hd, if_true, List.range_succ, List.map_append, List.map_cons, List.map_nil]
        rw [div_eq_ceil_of_dvd N j hN hd]
        simp [outLines, startedRound]
      · simp only [hd, if_false, Nat.add_zero]
        simp [outLines]
    · simp only [hk, if_false, and_false]
      simp [outLines]

/-- The rotating broadcast from the start barrier up to its `j`-th step, when no
signal comes and the round target allows `j` steps. -/
theorem bcast_prefix (g N : Nat) (hN : 0 < N) (hg : g < N) (s : State)
    (hpc : s.pc = PC.startBarrier) (hmethod : s.gMethod = bounce_method_broadcast)
    (hround : s.round = 0) (hflag : s.gEarlyTermination = 0)
    (hsize : s.size = N) (hgr : s.gRootRank = g) (hne : s.gRounds ≠ 0)
    (j : Nat) (hj : s.gRounds < 0 ∨ (j : Int) ≤ N * s.gRounds) :
    ∃ evs, steps (2 + 3 * j) s = { s with
        root_rank := (((g + j) % N : Nat) : Int),
        round := ((j / N : Nat) : Int),
        pc := PC.bcastCheckSignal,
        trace := s.trace ++ evs } ∧
      observable evs = [Event.MPI_Barrier] ++ bcastEvents s.gSize s.rank g N j := by
  obtain ⟨e1, h1, o1⟩ := step_startBarrier s hpc
  have h2 := step_dispatch { s with pc := PC.dispatch, trace := s.trace ++ e1 } rfl
  simp only [] at h2
  rw [if_pos hne, if_neg (by rw [hmethod]; decide), if_pos hmethod] at h2
  obtain ⟨e3, h3, o3⟩ := bcast_loop g N hN hg j
    { s with root_rank := s.gRootRank, pc := PC.bcastCheckSignal, trace := s.trace ++ e1 }
    rfl hflag hsize hgr hgr hround hj
  simp only [] at h3 o3
  refine ⟨e1 ++ e3, ?_, ?_⟩
  · have e : 2 + 3 * j = 1 + (1 + 3 * j) := by omega
    rw [e, steps_add, steps_add]
    simp only [steps_one]
    rw [h1, h2, h3]
    simp only [List.append_assoc]
  · rw [observable_append, o1, o3]

/-- The whole run of a rank in a rotating broadcast of `N` ranks that the rank
`g` starts, with a round target `R ≥ 1` and no signal: `3 * (N * R) + 10` steps. -/
theorem bcast_run (g N R : Nat) (hN : 0 < N) (hg : g < N) (hR : 1 ≤ R) (s : State)
    (hpc : s.pc = PC.startBarrier) (hmethod : s.gMethod = bounce_method_broadcast)
    (hround : s.round = 0) (hflag : s.gEarlyTermination = 0)
    (hsize : s.size = N) (hgr : s.gRootRank = g) (hrounds : s.gRounds = R) :
    ∃ evs, steps (3 * (N * R) + 10) s = { s with
        root_rank := s.gRootRank, round := s.gRounds, pc := PC.done, trace := s.trace ++ evs } ∧
      observable evs = [Event.MPI_Barrier] ++ bcastEvents s.gSize s.rank g N (N * R) ++ closing s := by
  obtain ⟨e1, h1, o1⟩ := bcast_prefix g N hN hg s hpc hmethod hround hflag hsize hgr
    (by rw [hrounds]; exact_mod_cast (by omega : R ≠ 0)) (N * R)
    (Or.inr (by rw [hrounds]; push_cast; exact le_refl _))
  have em : (g + N * R) % N = g := by rw [Nat.add_mul_mod_self_left, Nat.mod_eq_of_lt hg]
  have ed : N * R / N = R := Nat.mul_div_cancel_left R hN
  rw [em, ed, ← hgr, ← hrounds] at h1
  have h4 := step_bcastCheckSignal
    { s with root_rank := s.gRootRank, round := s.gRounds, pc := PC.bcastCheckSignal,
             trace := s.trace ++ e1 } rfl
  simp only [] at h4
  rw [if_neg (by simp [hflag])] at h4
  have h5 := step_bcastCheckRounds
    { s with root_rank := s.gRootRank, round := s.gRounds, pc := PC.bcastCheckRounds,
             trace := s.trace ++ e1 } rfl
  rw [if_pos (roundsReached_true _ (by simp only [hrounds]; omega) (le_refl _))] at h5
  simp only [] at h5
  obtain ⟨e6, h6, o6⟩ := step_bcastReport
    { s with root_rank := s.gRootRank, round := s.gRounds, pc := PC.bcastReport,
             trace := s.trace ++ e1 } rfl
  simp only [] at h6 o6
  rw [if_neg (by simp [hflag])] at o6
  obtain ⟨e7, h7, o7⟩ := tail_from_loopExited
    { s with root_rank := s.gRootRank, round := s.gRounds, pc := PC.loopExited,
             trace := s.trace ++ e1 ++ e6 } rfl
  simp only [] at h7 o7
  refine ⟨e1 ++ e6 ++ e7, ?_, ?_⟩
  · have e : 3 * (N * R) + 10 = (2 + 3 * (N * R)) + (1 + (1 + (1 + 5))) := by omega
    rw [e, steps_add, steps_add, steps_add, steps_add]
    simp only [steps_one]
    rw [h1, h4, h5, h6, h7]
    simp only [List.append_assoc]
  · simp only [observable_append, o1, o6, o7, closing, List.append_nil, List.nil_append,
      List.append_assoc]

/-- C3. Rotating broadcast among `N ≥ 2` ranks with a designated root in
`[0, N)`, a round target `Rmax ≥ 1` and no signal, on any rank.  After the
first `j` broadcast steps, for every `j ≤ N * Rmax`, the loop is at its head,
the round counter is `j / N` (so it goes up exactly after the steps
`N, 2N, ..., N * Rmax`), and the sources of these steps were `(root + i) mod N`
for `i = 0, ..., j - 1`.  The run ends (after `3 * N * Rmax + 10` steps it is at
`return 0` and stays there) having made exactly `N * Rmax` broadcasts, with the
round counter equal to `Rmax`, and what it wrote to `out_fptr` is exactly the
lines `Started round k` for `k = 0, ..., Rmax - 1` on the designated root,
nothing on another rank. -/
theorem bcast_rotation (s : State) (hs : atBcastStart s) (hN : 2 ≤ s.size)
    (hroot0 : 0 ≤ s.gRootRank) (hroot1 : s.gRootRank < s.size) (hRmax : 1 ≤ s.gRounds)
    (j : Nat) (hj : j ≤ s.size.toNat * s.gRounds.toNat)
    (n : Nat) (hn : 3 * (s.size.toNat * s.gRounds.toNat) + 10 ≤ n) :
    ((steps (2 + 3 * j) s).pc = PC.bcastCheckSignal ∧
      (steps (2 + 3 * j) s).round = (j : Int) / s.size ∧
      (steps (2 + 3 * j) s).root_rank = (s.gRootRank + j) % s.size ∧
      bcastRoots (steps (2 + 3 * j) s).trace = bcastRoots s.trace ++
        (List.range j).map (fun (i : Nat) => (s.gRootRank + i) % s.size)) ∧
    ((steps n s).pc = PC.done ∧
      (steps n s).round = s.gRounds ∧
      bcastRoots (steps n s).trace = bcastRoots s.trace ++
        (List.range (s.size.toNat * s.gRounds.toNat)).map
          (fun (i : Nat) => (s.gRootRank + i) % s.size) ∧
      outLines (steps n s).trace = outLines s.trace ++
        (if s.rank = s.gRootRank then
          (List.range s.gRounds.toNat).map
            (fun (k : Nat) => Event.out "Started round %lld\n" [Arg.int (k : Int)])
         else [])) := by
  obtain ⟨hpc, hmethod, hround, hflag⟩ := hs
  have hsize : s.size = (s.size.toNat : Int) := (Int.toNat_of_nonneg (by omega)).symm
  have hgr : s.gRootRank = (s.gRootRank.toNat : Int) := (Int.toNat_of_nonneg hroot0).symm
  have hrounds : s.gRounds = (s.gRounds.toNat : Int) := (Int.toNat_of_nonneg (by omega)).symm
  have hNpos : 0 < s.size.toNat := by omega
  have hg : s.gRootRank.toNat < s.size.toNat := by omega
  have hsrc : ∀ i : Nat, (((s.gRootRank.toNat + i) % s.size.toNat : Nat) : Int)
      = (s.gRootRank + i) % s.size := by
    intro i
    rw [Int.natCast_mod, Nat.cast_add, ← hgr, ← hsize]
  constructor
  · obtain ⟨evs, h, o⟩ := bcast_prefix s.gRootRank.toNat s.size.toNat hNpos hg s hpc hmethod hround
      hflag hsize hgr (by omega) j
      (Or.inr (by rw [hrounds]; exact_mod_cast hj))
    rw [h]
    refine ⟨rfl, ?_, ?_, ?_⟩
    · simp only []
      rw [Int.natCast_div, ← hsize]
    · simp only []
      exact hsrc j
    · simp only []
      rw [bcastRoots_append, ← bcastRoots_observable evs, o, bcastRoots_append,
        bcastRoots_bcastEvents]
      simp only [hsrc]
      rfl
  · obtain ⟨evs, h, o⟩ := bcast_run s.gRootRank.toNat s.size.toNat s.gRounds.toNat hNpos hg
      (by omega) s hpc hmethod hround hflag hsize hgr hrounds
    have hdone : (steps (3 * (s.size.toNat * s.gRounds.toNat) + 10) s).pc = PC.done := by rw [h]
    rw [steps_of_le _ n s hdone hn, h]
    refine ⟨rfl, rfl, ?_, ?_⟩
    · simp only []
      rw [bcastRoots_append, ← bcastRoots_observable evs, o]
      simp only [bcastRoots_append, bcastRoots_bcastEvents, bcastRoots_closing, hsrc,
        List.append_nil]
      rfl
    · simp only []
      rw [outLines_append, ← outLines_observable evs, o]
      simp only [outLines_append, outLines_bcastEvents _ _ _ _ _ hNpos, outLines_closing,
        List.append_nil]
      have hc : (s.size.toNat * s.gRounds.toNat + (s.size.toNat - 1)) / s.size.toNat
          = s.gRounds.toNat := by
        rw [Nat.mul_add_div hNpos, Nat.div_eq_of_lt (by omega)]
        rfl
      rw [hc, ← hgr]
      rfl

/-- C3, on scenario B: after four steps the counter is `4 / 3`, and the run
ends with the sources `(1 + i) mod 3` for `i < 6` and the counter 2. -/
theorem bcast_rotation_witness :
    ((steps 14 scenarioB).pc = PC.bcastCheckSignal ∧
      (steps 14 scenarioB).round = (4 : Int) / 3 ∧
      (steps 14 scenarioB).root_rank = ((1 : Int) + 4) % 3 ∧
      bcastRoots (steps 14 scenarioB).trace = [] ++
        (List.range 4).map (fun (i : Nat) => ((1 : Int) + i) % 3)) ∧
    ((steps 28 scenarioB).pc = PC.done ∧
      (steps 28 scenarioB).round = 2 ∧
      bcastRoots (steps 28 scenarioB).trace = [] ++
        (List.range 6).map (fun (i : Nat) => ((1 : Int) + i) % 3) ∧
      outLines (steps 28 scenarioB).trace = [] ++
        (if (1 : Int) = 1 then
          (List.range 2).map (fun (k : Nat) => Event.out "Started round %lld\n" [Arg.int (k : Int)])
         else [])) :=
  bcast_rotation scenarioB ⟨rfl, rfl, rfl, rfl⟩ (by decide) (by decide) (by decide) (by decide)
    4 (by decide) 28 (by decide)

/-! ## Early termination on the root of the ring -/

/-- From either poll of the root of the ring with the flag set to `return 0`:
seven steps, one record. -/
theorem root_stop_run (s : State)
    (hpc : s.pc = PC.rootCheckSignal ∨ s.pc = PC.rootCheckSignalAfterSend)
    (hflag : s.gEarlyTermination ≠ 0) :
    step s = { s with pc := PC.rootReport } ∧
    ∃ evs, steps 7 s = { s with pc := PC.done, trace := s.trace ++ evs } ∧
      observable evs = [earlyTerminationRecord s] ++ closing s := by
  have h1 : step s = { s with pc := PC.rootReport } := by
    rcases hpc with hpc | hpc
    · rw [step_rootCheckSignal s hpc, if_pos hflag]
    · rw [step_rootCheckSignalAfterSend s hpc, if_pos hflag]
  refine ⟨h1, ?_⟩
  have h2 := step_rootReport { s with pc := PC.rootReport } rfl
  simp only [] at h2
  rw [if_pos hflag] at h2
  obtain ⟨e3, h3, o3⟩ := tail_from_loopExited
    { s with pc := PC.loopExited,
             trace := s.trace ++ [earlyTerminationRecord { s with pc := PC.rootReport }] } rfl
  simp only [] at h3 o3
  refine ⟨[earlyTerminationRecord { s with pc := PC.rootReport }] ++ e3, ?_, ?_⟩
  · have e : 7 = 1 + (1 + 5) := rfl
    rw [e, steps_add, steps_add]
    simp only [steps_one]
    rw [h1, h2, h3]
    simp only [List.append_assoc]
  · rw [observable_append, o3]
    rfl

/-! ## A round target of zero -/

/-- The run from the start barrier with a round target of zero: six steps. -/
theorem zero_rounds_run (s : State) (hpc : s.pc = PC.startBarrier) (hrounds : s.gRounds = 0) :
    ∃ evs, steps 6 s = { s with pc := PC.done, trace := s.trace ++ evs } ∧
      observable evs = [Event.MPI_Barrier] ++ closing s := by
  obtain ⟨e1, h1, o1⟩ := step_startBarrier s hpc
  have h2 := step_dispatch { s with pc := PC.dispatch, trace := s.trace ++ e1 } rfl
  simp only [] at h2
  rw [if_neg (by simp [hrounds])] at h2
  obtain ⟨e3, h3, o3⟩ := tail_from_freeBall { s with pc := PC.freeBall, trace := s.trace ++ e1 } rfl
  simp only [] at h3 o3
  refine ⟨e1 ++ e3, ?_, ?_⟩
  · have e : 6 = 1 + (1 + 4) := rfl
    rw [e, steps_add, steps_add]
    simp only [steps_one]
    rw [h1, h2, h3]
    simp only [List.append_assoc]
  · rw [observable_append, o1, o3]; rfl

/-! ## A negative round target -/

/-- With a negative round target, a step from inside a loop stays inside the
loop unless it is a poll that reads a flag that is set. -/
theorem unbounded_step (s : State) (hR : s.gRounds < 0) (hin : inLoop s.pc = true) :
    (inLoop (step s).pc = false ↔ (isPoll s.pc = true ∧ s.gEarlyTermination ≠ 0)) ∧
      (step s).gRounds = s.gRounds ∧ (step s).gEarlyTermination = s.gEarlyTermination := by
  have hrr : roundsReached s = false := roundsReached_false s (Or.inl hR)
  cases hpc : s.pc <;> rw [hpc] at hin <;> simp only [inLoop, Bool.false_eq_true] at hin
  · rw [step_rootCheckSignal s hpc]
    by_cases h : s.gEarlyTermination = 0 <;> simp [h, inLoop, isPoll]
  · rw [step_rootCheckRounds s hpc]
    simp [hrr, inLoop, isPoll]
  · obtain ⟨e, h, _⟩ := step_rootSend s hpc
    rw [h]; simp [inLoop, isPoll]
  · rw [step_rootCheckSignalAfterSend s hpc]
    by_cases h : s.gEarlyTermination = 0 <;> simp [h, inLoop, isPoll]
  · obtain ⟨e, h, _⟩ := step_rootRecv s hpc
    rw [h]; simp [inLoop, isPoll]
  · rw [step_otherCheckSignal s hpc]
    by_cases h : s.gEarlyTermination = 0 <;> simp [h, inLoop, isPoll]
  · rw [step_otherCheckRounds s hpc]
    simp [hrr, inLoop, isPoll]
  · obtain ⟨e, h, _⟩ := step_otherRecv s hpc
    rw [h]; simp [inLoop, isPoll]
  · rw [step_otherCheckSignalAfterRecv s hpc]
    by_cases h : s.gEarlyTermination = 0 <;> simp [h, inLoop, isPoll]
  · obtain ⟨e, h, _⟩ := step_otherSend s hpc
    rw [h]; simp [inLoop, isPoll]
  · rw [step_bcastCheckSignal s hpc]
    by_cases h : s.gEarlyTermination = 0 <;> simp [h, inLoop, isPoll]
  · rw [step_bcastCheckRounds s hpc]
    simp [hrr, inLoop, isPoll]
  · obtain ⟨e, h, _⟩ := step_bcastBody s hpc
    rw [h]; simp [inLoop, isPoll]

/-- With a negative round target and no signal, a loop is never left. -/
theorem unbounded_stays (n : Nat) (s : State) (hR : s.gRounds < 0) (hin : inLoop s.pc = true)
    (hflag : s.gEarlyTermination = 0) :
    inLoop (steps n s).pc = true ∧ (steps n s).gRounds = s.gRounds ∧
      (steps n s).gEarlyTermination = 0 := by
  induction n generalizing s with
  | zero => exact ⟨hin, rfl, hflag⟩
  | succ n ih =>
    obtain ⟨h1, h2, h3⟩ := unbounded_step s hR hin
    have hin2 : inLoop (step s).pc = true := by
      by_contra hc
      have := h1.1 (by simpa using hc)
      exact this.2 hflag
    obtain ⟨i1, i2, i3⟩ := ih (step s) (by rw [h2]; exact hR) hin2 (by rw [h3]; exact hflag)
    exact ⟨i1, i2.trans h2, i3⟩

/-- With a negative round target and no signal, the rotating broadcast has made
`n` broadcasts after `3 * n` steps and is at the head of its loop. -/
theorem bcast_unbounded (n : Nat) (s : State) (hpc : s.pc = PC.bcastCheckSignal)
    (hflag : s.gEarlyTermination = 0) (hR : s.gRounds < 0) :
    (steps (3 * n) s).pc = PC.bcastCheckSignal ∧ (steps (3 * n) s).gEarlyTermination = 0 ∧
      (steps (3 * n) s).gRounds = s.gRounds ∧
      (bcastRoots (steps (3 * n) s).trace).length = (bcastRoots s.trace).length + n := by
  induction n with
  | zero => exact ⟨hpc, hflag, rfl, rfl⟩
  | succ n ih =>
    obtain ⟨i1, i2, i3, i4⟩ := ih
    obtain ⟨evs, h, o⟩ := bcast_step (steps (3 * n) s) i1 i2
      (roundsReached_false _ (Or.inl (by rw [i3]; exact hR)))
    rw [Nat.mul_succ, steps_add, h]
    refine ⟨i1, i2, i3, ?_⟩
    simp only []
    rw [bcastRoots_append, List.length_append, i4, ← bcastRoots_observable evs, o]
    by_cases hc : (steps (3 * n) s).root_rank = (steps (3 * n) s).gRootRank ∧
        (steps (3 * n) s).rank = (steps (3 * n) s).gRootRank <;>
      simp [hc, bcastRoots, startedRound] <;> omega

/-- C6. An unbounded run stops only on the termination signal.  Let the round
target be negative and the process be anywhere inside one of the three loops
(root of the ring, other rank of the ring, rotating broadcast), whatever its
rank and its round counter.  (1) A round-limit test (lines 370, 386, 406) never
leaves the loop.  (2) A step leaves the loop if and only if it is a poll that
reads a non-zero flag.  (3) If the flag is clear and no signal comes, the
process is still inside the loop after any number of steps, and for every `n`
the loop completes more than `n` iterations: from the head of a ring loop the
round counter has gone up by `n + 1` after `5 * (n + 1)` steps, and from the
head of the broadcast loop `n + 1` broadcasts have been made after
`3 * (n + 1)` steps. -/
theorem unbounded_stops_only_on_signal (s : State) (hR : s.gRounds < 0)
    (hin : inLoop s.pc = true) (n : Nat) :
    (isRoundsTest s.pc = true → inLoop (step s).pc = true) ∧
    (inLoop (step s).pc = false ↔ (isPoll s.pc = true ∧ s.gEarlyTermination ≠ 0)) ∧
    (s.gEarlyTermination = 0 →
      inLoop (steps n s).pc = true ∧
      (s.pc = PC.rootCheckSignal ∨ s.pc = PC.otherCheckSignal →
        (steps (5 * (n + 1)) s).pc = s.pc ∧
        (steps (5 * (n + 1)) s).round = s.round + (n + 1)) ∧
      (s.pc = PC.bcastCheckSignal →
        (steps (3 * (n + 1)) s).pc = s.pc ∧
        (bcastRoots (steps (3 * (n + 1)) s).trace).length
          = (bcastRoots s.trace).length + (n + 1))) := by
  obtain ⟨h1, _, _⟩ := unbounded_step s hR hin
  refine ⟨?_, h1, ?_⟩
  · intro ht
    by_contra hc
    have := h1.1 (by simpa using hc)
    cases hpc : s.pc <;> rw [hpc] at ht this <;> simp [isRoundsTest, isPoll] at ht this
  · intro hflag
    refine ⟨(unbounded_stays n s hR hin hflag).1, ?_, ?_⟩
    · rintro (hpc | hpc)
      · obtain ⟨evs, h, _⟩ := root_loop (n + 1) s hpc hflag (Or.inl hR)
        rw [h]
        exact ⟨rfl, by push_cast; rfl⟩
      · obtain ⟨evs, h, _⟩ := other_loop (n + 1) s hpc hflag (Or.inl hR)
        rw [h]
        exact ⟨rfl, by push_cast; rfl⟩
    · intro hpc
      obtain ⟨b1, _, _, b4⟩ := bcast_unbounded (n + 1) s hpc hflag hR
      exact ⟨b1.trans hpc.symm, b4⟩

/-- C6, on the root of a ring of four with the default round target `-1`:
after `5 * 1000` steps it has completed a thousand rounds and is still looping. -/
theorem unbounded_stops_only_on_signal_witness :
    (isRoundsTest unboundedRoot.pc = true → inLoop (step unboundedRoot).pc = true) ∧
    (inLoop (step unboundedRoot).pc = false ↔
      (isPoll unboundedRoot.pc = true ∧ unboundedRoot.gEarlyTermination ≠ 0)) ∧
    (unboundedRoot.gEarlyTermination = 0 →
      inLoop (steps 999 unboundedRoot).pc = true ∧
      (unboundedRoot.pc = PC.rootCheckSignal ∨ unboundedRoot.pc = PC.otherCheckSignal →
        (steps (5 * (999 + 1)) unboundedRoot).pc = unboundedRoot.pc ∧
        (steps (5 * (999 + 1)) unboundedRoot).round = unboundedRoot.round + ((999 : Nat) + 1)) ∧
      (unboundedRoot.pc = PC.bcastCheckSignal →
        (steps (3 * (999 + 1)) unboundedRoot).pc = unboundedRoot.pc ∧
        (bcastRoots (steps (3 * (999 + 1)) unboundedRoot).trace).length
          = (bcastRoots unboundedRoot.trace).length + (999 + 1))) :=
  unbounded_stops_only_on_signal unboundedRoot (by decide) (by decide) 999

/-! ## The signal handler and the flag -/

/-- C7 as stated fails: after one `-v` the handler also writes a line to
`stderr`, so the state after it is not the state before it with only the flag
replaced. -/
theorem handler_writes_warning :
    catch_SIGUSR2 12 verboseAtBarrier ≠ { verboseAtBarrier with gEarlyTermination := 12 } ∧
      errLines (catch_SIGUSR2 12 verboseAtBarrier).trace
        = errLines verboseAtBarrier.trace ++
            [Event.err "[WARNING] [rank %d] catch_SIGUSR2\n" [Arg.int 0]] := by
  decide

/-- What the handler does to the state: lines 151-152. -/
theorem catch_SIGUSR2_eq (sigMask : Int) (s : State) :
    catch_SIGUSR2 sigMask s
        = { s with
            gEarlyTermination := sigMask,
            trace := s.trace ++
              (if verbosity_warning ≤ s.gVerbosity then
                [Event.err "[WARNING] [rank %d] catch_SIGUSR2\n" [Arg.int s.gMyRank]]
               else []) } := by
  unfold catch_SIGUSR2
  simp only [WARNING_eq, logged]
  rfl

/-- C7, amended.  The handler assigns the number of the signal to the flag, and
before that it calls `logline` at the level `warning`: when `gVerbosity` is at
least `verbosity_warning` one line that cites `gMyRank` is appended to `stderr`,
and at the default verbosity nothing is.  No other field of the state changes,
and nothing is written to `out_fptr`. -/
theorem handler_frame (sigMask : Int) (s : State) :
    catch_SIGUSR2 sigMask s
        = { s with
            gEarlyTermination := sigMask,
            trace := s.trace ++
              (if verbosity_warning ≤ s.gVerbosity then
                [Event.err "[WARNING] [rank %d] catch_SIGUSR2\n" [Arg.int s.gMyRank]]
               else []) } ∧
      outLines (catch_SIGUSR2 sigMask s).trace = outLines s.trace ∧
      observable (catch_SIGUSR2 sigMask s).trace = observable s.trace ∧
      (if s.gVerbosity = verbosity_error then
          catch_SIGUSR2 sigMask s = { s with gEarlyTermination := sigMask }
        else
          (catch_SIGUSR2 sigMask s).trace
            = s.trace ++ [Event.err "[WARNING] [rank %d] catch_SIGUSR2\n" [Arg.int s.gMyRank]]) := by
  have h := catch_SIGUSR2_eq sigMask s
  refine ⟨h, ?_, ?_, ?_⟩
  · rw [h]
    by_cases hv : verbosity_warning ≤ s.gVerbosity <;> simp [hv, outLines]
  · rw [h]
    by_cases hv : verbosity_warning ≤ s.gVerbosity <;> simp [hv]
  · rw [h]
    by_cases hv : s.gVerbosity = verbosity_error
    · have : ¬ (verbosity_warning ≤ s.gVerbosity) := by
        rw [hv]; decide
      rw [if_pos hv, if_neg this, List.append_nil]
    · have : verbosity_warning ≤ s.gVerbosity := by
        unfold verbosity_warning; unfold verbosity_error at hv; omega
      rw [if_neg hv, if_pos this]

/-- A step of `main` changes none of the globals but the trace: in particular it
does not write the flag. -/
theorem step_frame (s : State) :
    (step s).gEarlyTermination = s.gEarlyTermination ∧ (step s).gRounds = s.gRounds ∧
      (step s).gRootRank = s.gRootRank ∧ (step s).rank = s.rank ∧ (step s).size = s.size ∧
      (step s).gMethod = s.gMethod ∧ (step s).gVerbosity = s.gVerbosity := by
  cases hpc : s.pc
  · obtain ⟨e, h, _⟩ := step_startBarrier s hpc
    rw [h]; simp
  · rw [step_dispatch s hpc]
    split_ifs <;> simp
  · rw [step_rootCheckSignal s hpc]
    split_ifs <;> simp
  · rw [step_rootCheckRounds s hpc]
    split_ifs <;> simp
  · obtain ⟨e, h, _⟩ := step_rootSend s hpc
    rw [h]; simp
  · rw [step_rootCheckSignalAfterSend s hpc]
    split_ifs <;> simp
  · obtain ⟨e, h, _⟩ := step_rootRecv s hpc
    rw [h]; simp
  · rw [step_rootReport s hpc]; simp
  · rw [step_otherCheckSignal s hpc]
    split_ifs <;> simp
  · rw [step_otherCheckRounds s hpc]
    split_ifs <;> simp
  · obtain ⟨e, h, _⟩ := step_otherRecv s hpc
    rw [h]; simp
  · rw [step_otherCheckSignalAfterRecv s hpc]
    split_ifs <;> simp
  · obtain ⟨e, h, _⟩ := step_otherSend s hpc
    rw [h]; simp
  · obtain ⟨e, h, _⟩ := step_otherReport s hpc
    rw [h]; simp
  · rw [step_bcastCheckSignal s hpc]
    split_ifs <;> simp
  · rw [step_bcastCheckRounds s hpc]
    split_ifs <;> simp
  · obtain ⟨e, h, _⟩ := step_bcastBody s hpc
    rw [h]; simp
  · obtain ⟨e, h, _⟩ := step_bcastReport s hpc
    rw [h]; simp
  · obtain ⟨e, h, _⟩ := step_loopExited s hpc
    rw [h]; simp
  · obtain ⟨e, h, _⟩ := step_freeBall s hpc
    rw [h]; simp
  · obtain ⟨e, h, _⟩ := step_closeOutput s hpc
    rw [h]; simp
  · obtain ⟨e, h, _⟩ := step_endBarrier s hpc
    rw [h]; simp
  · obtain ⟨e, h, _⟩ := step_finalize s hpc
    rw [h]; simp
  · have : step s = s := by unfold step; rw [hpc]
    rw [this]; simp

theorem exec_keeps_flag_set (a : Action) (s : State) (ha : deliverable a = true)
    (h : s.gEarlyTermination ≠ 0) : (exec a s).gEarlyTermination ≠ 0 := by
  cases a with
  | step => simp only [exec]; rw [(step_frame s).1]; exact h
  | signal m =>
    simp only [deliverable, decide_eq_true_eq] at ha
    simp only [exec, catch_SIGUSR2]
    omega

theorem run_keeps_flag_set (sched : List Action) (s : State)
    (hs : sched.all deliverable = true) (h : s.gEarlyTermination ≠ 0) :
    (run sched s).gEarlyTermination ≠ 0 := by
  induction sched generalizing s with
  | nil => exact h
  | cons a rest ih =>
    simp only [List.all_cons, Bool.and_eq_true] at hs
    exact ih (exec a s) hs.2 (exec_keeps_flag_set a s hs.1 h)

theorem run_append (a b : List Action) (s : State) : run (a ++ b) s = run b (run a s) := by
  induction a generalizing s with
  | nil => rfl
  | cons x a ih => exact ih (exec x s)

/-- C8. The termination flag is one-way.  Take any state (so the initial one,
where the flag is clear) and any schedule of steps of `main` and deliveries of
signals, `before` followed by `after`.  If the flag is set after `before`, it
is still set after `before ++ after`.  No step of `main`, in either method,
writes the flag, and the handler leaves it non-zero, the number of a delivered
signal being positive. -/
theorem flag_one_way (before after : List Action) (s : State)
    (hsched : (before ++ after).all deliverable = true)
    (hset : (run before s).gEarlyTermination ≠ 0) :
    (run (before ++ after) s).gEarlyTermination ≠ 0 ∧
      (∀ st : State, (step st).gEarlyTermination = st.gEarlyTermination) ∧
      (∀ (st : State) (sigMask : Int), 0 < sigMask →
        (catch_SIGUSR2 sigMask st).gEarlyTermination ≠ 0) := by
  refine ⟨?_, fun st => (step_frame st).1, ?_⟩
  · rw [run_append]
    rw [List.all_append, Bool.and_eq_true] at hsched
    exact run_keeps_flag_set after _ hsched.2 hset
  · intro st m hm
    simp only [catch_SIGUSR2]
    omega

/-- C8, on the root of a ring of four: signal 12 comes after thirty steps, and
the flag is still set after twenty more steps and a second delivery. -/
theorem flag_one_way_witness :
    (run ((List.replicate 30 Action.step ++ [Action.signal 12]) ++
        (List.replicate 3 Action.step ++ [Action.signal 12] ++ List.replicate 17 Action.step))
      { initialState 0 4 with gRounds := 100 }).gEarlyTermination ≠ 0 ∧
      (∀ st : State, (step st).gEarlyTermination = st.gEarlyTermination) ∧
      (∀ (st : State) (sigMask : Int), 0 < sigMask →
        (catch_SIGUSR2 sigMask st).gEarlyTermination ≠ 0) :=
  flag_one_way (List.replicate 30 Action.step ++ [Action.signal 12])
    (List.replicate 3 Action.step ++ [Action.signal 12] ++ List.replicate 17 Action.step)
    { initialState 0 4 with gRounds := 100 } (by decide) (by decide)

/-! ## The designated root rank -/

theorem rootValid_logline (N : Int) (level : Nat) (f : String) (a : List Arg) (s : State)
    (h : rootValid N s) : rootValid N (logline level f a s) := by
  rw [logline_eq]; exact h

theorem rootValid_trace (N : Int) (s : State) (t : List Event) (h : rootValid N s) :
    rootValid N { s with trace := t } := h

theorem cmod_root_range (v N : Int) (hv : 0 ≤ v) (hN : 1 ≤ N) :
    cmod v N = v % N ∧ 0 ≤ cmod v N ∧ cmod v N < N := by
  have e : cmod v N = v % N := Int.tmod_eq_emod hv (by omega)
  rw [e]
  exact ⟨rfl, Int.emod_nonneg _ (by omega), Int.emod_lt_of_pos _ (by omega)⟩

theorem rootRankFrom_accepts (N v : Int) (hN : 1 ≤ N) (optarg : List Char) (s : State)
    (hs : s.size = N) (h0 : 0 ≤ v) (h1 : v ≤ INT_MAX) :
    ∃ st, rootRankFrom v true optarg s = Except.ok st ∧ st.gRootRank = v % N ∧
      0 ≤ st.gRootRank ∧ st.gRootRank < N ∧ st.size = N ∧ st.round = s.round ∧
      st.gEarlyTermination = s.gEarlyTermination ∧ st.pc = s.pc := by
  obtain ⟨c1, c2, c3⟩ := cmod_root_range v N h0 hN
  unfold rootRankFrom
  rw [if_pos rfl, if_neg (by omega)]
  refine ⟨_, rfl, ?_⟩
  rw [INFO_eq]
  subst hs
  exact ⟨c1, c2, c3, rfl, rfl, rfl, rfl⟩

theorem rootRankFrom_rejects (v : Int) (optarg : List Char) (s : State)
    (h : v < 0 ∨ INT_MAX < v) :
    ∃ st, rootRankFrom v true optarg s = Except.error (EINVAL, st) ∧
      st.gRootRank = s.gRootRank := by
  unfold rootRankFrom finalizeAndExit
  rw [if_pos rfl, if_pos (by omega)]
  refine ⟨_, rfl, ?_⟩
  rw [ERROR_eq]
  rfl

theorem rootRankFrom_ok (N v : Int) (hN : 1 ≤ N) (c : Bool) (optarg : List Char) (s st : State)
    (hs : rootValid N s) (h : rootRankFrom v c optarg s = Except.ok st) : rootValid N st := by
  obtain ⟨h1, h2, h3, h4, h5, h6⟩ := hs
  unfold rootRankFrom finalizeAndExit at h
  by_cases hc : c = true
  · rw [if_pos hc] at h
    by_cases hv : v < 0 ∨ v > INT_MAX
    · rw [if_pos hv] at h; cases h
    · rw [if_neg hv] at h
      obtain ⟨c1, c2, c3⟩ := cmod_root_range v N (by omega) hN
      injection h with h
      subst h
      rw [INFO_eq]
      subst h1
      exact ⟨rfl, c2, c3, h4, h5, h6⟩
  · rw [if_neg hc] at h; cases h

theorem optionSwitch_ok (N : Int) (hN : 1 ≤ N) (exe : List Char) (optch : Char)
    (optarg : List Char) (s st : State) (hs : rootValid N s)
    (h : optionSwitch exe optch optarg s = Except.ok st) :
    rootValid N st ∧ (optch ≠ 'R' → st.gRootRank = s.gRootRank) := by
  unfold optionSwitch at h
  split_ifs at h with hv hh hsz hr hm ho hR
  · unfold case_v at h
    simp only [] at h
    split_ifs at h <;> injection h with h <;> subst h
    · exact ⟨hs, fun _ => rfl⟩
    · rw [DEBUG_eq]; exact ⟨hs, fun _ => rfl⟩
  · unfold case_h finalizeAndExit at h; cases h
  · unfold case_s finalizeAndExit at h
    simp only [] at h
    split_ifs at h
    injection h with h; subst h
    rw [DEBUG_eq]; exact ⟨hs, fun _ => rfl⟩
  · unfold case_r finalizeAndExit at h
    simp only [] at h
    split_ifs at h
    injection h with h; subst h
    rw [DEBUG_eq]; exact ⟨hs, fun _ => rfl⟩
  · unfold case_m finalizeAndExit at h
    simp only [] at h
    split_ifs at h
    injection h with h; subst h
    rw [DEBUG_eq]; exact ⟨hs, fun _ => rfl⟩
  · unfold case_o at h
    injection h with h; subst h
    rw [DEBUG_eq]; exact ⟨hs, fun _ => rfl⟩
  · exact ⟨rootRankFrom_ok N _ hN _ optarg s st hs h, fun hne => absurd hR hne⟩
  · injection h with h; subst h
    exact ⟨hs, fun _ => rfl⟩

theorem parseOptions_ok (N : Int) (hN : 1 ≤ N) (exe : List Char)
    (opts : List (Char × List Char)) (s st : State) (hs : rootValid N s)
    (h : parseOptions exe opts s = Except.ok st) :
    rootValid N st ∧ ((∀ o ∈ opts, o.1 ≠ 'R') → st.gRootRank = s.gRootRank) := by
  induction opts generalizing s with
  | nil =>
    simp only [parseOptions] at h
    injection h with h; subst h
    exact ⟨hs, fun _ => rfl⟩
  | cons o opts ih =>
    obtain ⟨optch, optarg⟩ := o
    simp only [parseOptions] at h
    cases hsw : optionSwitch exe optch optarg s with
    | error e => rw [hsw] at h; cases h
    | ok s1 =>
      rw [hsw] at h
      obtain ⟨v1, k1⟩ := optionSwitch_ok N hN exe optch optarg s s1 hs hsw
      obtain ⟨v2, k2⟩ := ih s1 v1 h
      refine ⟨v2, fun hno => ?_⟩
      rw [k2 (fun o ho => hno o (List.mem_cons_of_mem _ ho)), k1 (hno (optch, optarg) (List.mem_cons_self _ _))]

theorem openOutput_ok (N : Int) (env : Env) (s st : State) (hs : rootValid N s)
    (h : openOutput env s = Except.ok st) : rootValid N st ∧ st.gRootRank = s.gRootRank := by
  unfold openOutput finalizeAndExit at h
  by_cases hr : s.rank = s.gRootRank
  · rw [if_pos hr] at h
    cases hf : s.out_filename with
    | none =>
      rw [hf] at h
      simp only [] at h
      injection h with h; subst h
      rw [INFO_eq]; exact ⟨hs, rfl⟩
    | some path =>
      rw [hf] at h
      simp only [] at h
      by_cases hfo : env.fopen_ok = true
      · rw [if_pos hfo] at h
        injection h with h; subst h
        rw [INFO_eq]; exact ⟨hs, rfl⟩
      · rw [if_neg hfo] at h; cases h
  · rw [if_neg hr] at h
    injection h with h; subst h
    exact ⟨hs, rfl⟩

theorem allocateBall_ok (N : Int) (env : Env) (s st : State) (hs : rootValid N s)
    (h : allocateBall env s = Except.ok st) : rootValid N st ∧ st.gRootRank = s.gRootRank := by
  unfold allocateBall finalizeAndExit at h
  simp only [] at h
  split_ifs at h
  injection h with h; subst h
  rw [INFO_eq, DEBUG_eq, INFO_eq]; exact ⟨hs, rfl⟩

theorem setup_ok (N : Int) (env : Env) (s st : State) (hs : rootValid N s)
    (h : setup env s = Except.ok st) : rootValid N st ∧ st.gRootRank = s.gRootRank := by
  unfold setup at h
  simp only [] at h
  rw [INFO_eq] at h
  simp only [DEBUG_eq] at h
  split at h
  · rename_i s1 h1
    obtain ⟨a1, a2⟩ := openOutput_ok N env _ s1 (by exact hs) h1
    obtain ⟨b1, b2⟩ := allocateBall_ok N env s1 st a1 h
    exact ⟨b1, b2.trans a2⟩
  · cases h

theorem strtol_of_scan (optarg : List Char) :
    (0 ≤ scannedValue (scanNumber optarg) ∧ scannedValue (scanNumber optarg) ≤ INT_MAX →
      (strtol optarg).1 = scannedValue (scanNumber optarg)) ∧
    (scannedValue (scanNumber optarg) < 0 → (strtol optarg).1 < 0) ∧
    (INT_MAX < scannedValue (scanNumber optarg) → INT_MAX < (strtol optarg).1) := by
  unfold strtol scannedValue INT_MAX LONG_MAX LONG_MIN
  simp only []
  by_cases hneg : (scanNumber optarg).negative = true
  · simp only [hneg, if_true]
    refine ⟨fun h => ?_, fun h => ?_, fun h => ?_⟩
    · rw [if_neg (by omega)]
    · split_ifs <;> omega
    · omega
  · simp only [hneg, Bool.false_eq_true, if_false]
    refine ⟨fun h => ?_, fun h => ?_, fun h => ?_⟩
    · rw [if_neg (by omega)]
    · omega
    · split_ifs <;> omega

/-- C9. The designated root rank is valid.  Let `N ≥ 1` be the number of ranks.
(1) Let `v` be the number that `strtol` returned for the argument of the option
`-R` (`--root-rank`): if `0 ≤ v ≤ INT_MAX` the option is accepted and the root
becomes `v mod N`, which is in `[0, N)`; if `v < 0` or `v > INT_MAX` the run
leaves with status `EINVAL` and the root is not set.  (2) The same holds of the
number that the text of the argument denotes, however large.  (3) The root is 0
initially, and stays 0 when no `-R` option is given.  (4) Hence every run that
reaches the start barrier, whatever its options, does so with a root in
`[0, N)`, with the counter 0 and the flag clear. -/
theorem root_rank_valid (N : Int) (hN : 1 ≤ N) (v : Int) (optarg : List Char) (s : State)
    (hs : s.size = N) (hconv : (scanNumber optarg).converted = true)
    (exe : List Char) (opts : List (Char × List Char)) (env : Env) (rank : Int) :
    (0 ≤ v ∧ v ≤ INT_MAX →
      ∃ st, rootRankFrom v true optarg s = Except.ok st ∧ st.gRootRank = v % N ∧
        0 ≤ st.gRootRank ∧ st.gRootRank < N) ∧
    (v < 0 ∨ INT_MAX < v →
      ∃ st, rootRankFrom v true optarg s = Except.error (EINVAL, st) ∧
        st.gRootRank = s.gRootRank) ∧
    (0 ≤ scannedValue (scanNumber optarg) ∧ scannedValue (scanNumber optarg) ≤ INT_MAX →
      ∃ st, case_R optarg s = Except.ok st ∧
        st.gRootRank = scannedValue (scanNumber optarg) % N ∧
        0 ≤ st.gRootRank ∧ st.gRootRank < N) ∧
    (scannedValue (scanNumber optarg) < 0 ∨ INT_MAX < scannedValue (scanNumber optarg) →
      ∃ st, case_R optarg s = Except.error (EINVAL, st) ∧ st.gRootRank = s.gRootRank) ∧
    (initialState rank N).gRootRank = 0 ∧
    (∀ st, mainToBarrier exe opts env rank N = Except.ok st →
      0 ≤ st.gRootRank ∧ st.gRootRank < N ∧ st.size = N ∧ st.pc = PC.startBarrier ∧
        st.round = 0 ∧ st.gEarlyTermination = 0 ∧
        ((∀ o ∈ opts, o.1 ≠ 'R') → st.gRootRank = 0)) := by
  obtain ⟨t1, t2, t3⟩ := strtol_of_scan optarg
  have hc : (strtol optarg).2.converted = true := hconv
  refine ⟨?_, ?_, ?_, ?_, rfl, ?_⟩
  · rintro ⟨h0, h1⟩
    obtain ⟨st, e, r1, r2, r3, _⟩ := rootRankFrom_accepts N v hN optarg s hs h0 h1
    exact ⟨st, e, r1, r2, r3⟩
  · intro h
    exact rootRankFrom_rejects v optarg s h
  · intro h
    obtain ⟨st, e, r1, r2, r3, _⟩ := rootRankFrom_accepts N _ hN optarg s hs h.1 h.2
    refine ⟨st, ?_, r1, r2, r3⟩
    unfold case_R
    rw [hc, t1 h]
    exact e
  · intro h
    unfold case_R
    rw [hc]
    refine rootRankFrom_rejects _ optarg s ?_
    rcases h with h | h
    · exact Or.inl (t2 h)
    · exact Or.inr (t3 h)
  · intro st h
    unfold mainToBarrier at h
    split at h
    · rename_i s1 h1
      have h0 : rootValid N (initialState rank N) :=
        ⟨rfl, le_refl _, by show (0 : Int) < N; omega, rfl, rfl, rfl⟩
      obtain ⟨a1, a2⟩ := parseOptions_ok N hN exe opts _ s1 h0 h1
      obtain ⟨⟨b1, b2, b3, b4, b5, b6⟩, b7⟩ := setup_ok N env s1 st a1 h
      exact ⟨b2, b3, b1, b6, b4, b5, fun hno => by rw [b7, a2 hno]; rfl⟩
    · cases h

/-- C9, on `mpibounce -R 6` among four ranks: the root becomes 2. -/
theorem root_rank_valid_witness :
    ((0 : Int) ≤ 6 ∧ (6 : Int) ≤ INT_MAX →
      ∃ st, rootRankFrom 6 true "6".toList (initialState 0 4) = Except.ok st ∧
        st.gRootRank = 6 % 4 ∧ 0 ≤ st.gRootRank ∧ st.gRootRank < 4) ∧
    ((6 : Int) < 0 ∨ INT_MAX < 6 →
      ∃ st, rootRankFrom 6 true "6".toList (initialState 0 4) = Except.error (EINVAL, st) ∧
        st.gRootRank = (initialState 0 4).gRootRank) ∧
    (0 ≤ scannedValue (scanNumber "6".toList) ∧ scannedValue (scanNumber "6".toList) ≤ INT_MAX →
      ∃ st, case_R "6".toList (initialState 0 4) = Except.ok st ∧
        st.gRootRank = scannedValue (scanNumber "6".toList) % 4 ∧
        0 ≤ st.gRootRank ∧ st.gRootRank < 4) ∧
    (scannedValue (scanNumber "6".toList) < 0 ∨ INT_MAX < scannedValue (scanNumber "6".toList) →
      ∃ st, case_R "6".toList (initialState 0 4) = Except.error (EINVAL, st) ∧
        st.gRootRank = (initialState 0 4).gRootRank) ∧
    (initialState 0 4).gRootRank = 0 ∧
    (∀ st, mainToBarrier "mpibounce".toList [('R', "6".toList)] ⟨true, 0, true, 0⟩ 0 4
        = Except.ok st →
      0 ≤ st.gRootRank ∧ st.gRootRank < 4 ∧ st.size = 4 ∧ st.pc = PC.startBarrier ∧
        st.round = 0 ∧ st.gEarlyTermination = 0 ∧
        ((∀ o ∈ [('R', "6".toList)], o.1 ≠ 'R') → st.gRootRank = 0)) :=
  root_rank_valid 4 (by decide) 6 "6".toList (initialState 0 4) rfl (by decide)
    "mpibounce".toList [('R', "6".toList)] ⟨true, 0, true, 0⟩ 0

/-! ## The size of the ball -/

/-- C10 fails on the code at `1.5K`: `strtoull` stops at the point, no unit
follows, and `parse_memory` returns 0, which the option `-s` rejects with `EINVAL`;
the grammar that `usage` prints and the claim give 1500.  The whole numbers
`8K` and `8KiB` are read as 8000 and 8192. -/
theorem parse_memory_rejects_fraction :
    parse_memory "1.5K".toList = 0 ∧
      exitStatus (case_s "1.5K".toList (initialState 0 4)) = some EINVAL ∧
      parse_memory "8K".toList = 8000 ∧ parse_memory "8KiB".toList = 8192 ∧
      parse_memory "1500".toList = 1500 := by
  decide

/-! ## Early termination with repeated deliveries of the signal -/

theorem observable_idem (t : List Event) : observable (observable t) = observable t := by
  simp [observable, List.filter_filter]

theorem core_step (s : State) : core (step s) = core (step (core s)) := by
  have hc : (core s).pc = s.pc := rfl
  cases hpc : s.pc
  · obtain ⟨e1, h1, o1⟩ := step_startBarrier s hpc
    obtain ⟨e2, h2, o2⟩ := step_startBarrier (core s) hpc
    rw [h1, h2]; simp [core, o1, o2, observable_idem]
  · rw [step_dispatch s hpc, step_dispatch (core s) hpc]
    simp only [core]
    split_ifs <;> simp [observable_idem]
  · rw [step_rootCheckSignal s hpc, step_rootCheckSignal (core s) hpc]
    simp only [core]
    split_ifs <;> simp [observable_idem]
  · rw [step_rootCheckRounds s hpc, step_rootCheckRounds (core s) hpc]
    simp only [core, roundsReached]
    split_ifs <;> simp [observable_idem]
  · obtain ⟨e1, h1, o1⟩ := step_rootSend s hpc
    obtain ⟨e2, h2, o2⟩ := step_rootSend (core s) hpc
    rw [h1, h2]; simp [core, o1, o2, observable_idem]
  · rw [step_rootCheckSignalAfterSend s hpc, step_rootCheckSignalAfterSend (core s) hpc]
    simp only [core]
    split_ifs <;> simp [observable_idem]
  · obtain ⟨e1, h1, o1⟩ := step_rootRecv s hpc
    obtain ⟨e2, h2, o2⟩ := step_rootRecv (core s) hpc
    rw [h1, h2]; simp [core, o1, o2, observable_idem]
  · rw [step_rootReport s hpc, step_rootReport (core s) hpc]
    simp only [core]
    split_ifs <;> simp [observable_idem, earlyTerminationRecord]
  · rw [step_otherCheckSignal s hpc, step_otherCheckSignal (core s) hpc]
    simp only [core]
    split_ifs <;> simp [observable_idem]
  · rw [step_otherCheckRounds s hpc, step_otherCheckRounds (core s) hpc]
    simp only [core, roundsReached]
    split_ifs <;> simp [observable_idem]
  · obtain ⟨e1, h1, o1⟩ := step_otherRecv s hpc
    obtain ⟨e2, h2, o2⟩ := step_otherRecv (core s) hpc
    rw [h1, h2]; simp [core, o1, o2, observable_idem]
  · rw [step_otherCheckSignalAfterRecv s hpc, step_otherCheckSignalAfterRecv (core s) hpc]
    simp only [core]
    split_ifs <;> simp [observable_idem]
  · obtain ⟨e1, h1, o1⟩ := step_otherSend s hpc
    obtain ⟨e2, h2, o2⟩ := step_otherSend (core s) hpc
    rw [h1, h2]; simp [core, o1, o2, observable_idem]
  · obtain ⟨e1, h1, o1⟩ := step_otherReport s hpc
    obtain ⟨e2, h2, o2⟩ := step_otherReport (core s) hpc
    rw [h1, h2]; simp [core, o1, o2, observable_idem]
  · rw [step_bcastCheckSignal s hpc, step_bcastCheckSignal (core s) hpc]
    simp only [core]
    split_ifs <;> simp [observable_idem]
  · rw [step_bcastCheckRounds s hpc, step_bcastCheckRounds (core s) hpc]
    simp only [core, roundsReached]
    split_ifs <;> simp [observable_idem]
  · obtain ⟨e1, h1, o1⟩ := step_bcastBody s hpc
    obtain ⟨e2, h2, o2⟩ := step_bcastBody (core s) hpc
    rw [h1, h2]; simp [core, o1, o2, observable_idem]
  · obtain ⟨e1, h1, o1⟩ := step_bcastReport s hpc
    obtain ⟨e2, h2, o2⟩ := step_bcastReport (core s) hpc
    rw [h1, h2]; simp [core, o1, o2, observable_idem, earlyTerminationRecord]
  · obtain ⟨e1, h1, o1⟩ := step_loopExited s hpc
    obtain ⟨e2, h2, o2⟩ := step_loopExited (core s) hpc
    rw [h1, h2]; simp [core, o1, o2, observable_idem]
  · obtain ⟨e1, h1, o1⟩ := step_freeBall s hpc
    obtain ⟨e2, h2, o2⟩ := step_freeBall (core s) hpc
    rw [h1, h2]; simp [core, o1, o2, observable_idem]
  · obtain ⟨e1, h1, o1⟩ := step_closeOutput s hpc
    obtain ⟨e2, h2, o2⟩ := step_closeOutput (core s) hpc
    rw [h1, h2]; simp [core, o1, o2, observable_idem]
  · obtain ⟨e1, h1, o1⟩ := step_endBarrier s hpc
    obtain ⟨e2, h2, o2⟩ := step_endBarrier (core s) hpc
    rw [h1, h2]; simp [core, o1, o2, observable_idem]
  · obtain ⟨e1, h1, o1⟩ := step_finalize s hpc
    obtain ⟨e2, h2, o2⟩ := step_finalize (core s) hpc
    rw [h1, h2]; simp [core, o1, o2, observable_idem]
  · have h1 : step s = s := by unfold step; rw [hpc]
    have h2 : step (core s) = core s := by unfold step; rw [hc, hpc]
    rw [h1, h2]; simp [core, observable_idem]

theorem core_step_congr (a b : State) (h : core a = core b) : core (step a) = core (step b) := by
  rw [core_step a, core_step b, h]

theorem core_handler (sigMask : Int) (s : State) :
    core (catch_SIGUSR2 sigMask s) = { core s with gEarlyTermination := sigMask } := by
  rw [catch_SIGUSR2_eq sigMask s]
  by_cases hv : verbosity_warning ≤ s.gVerbosity <;> simp [core, hv]

theorem core_steps_congr (n : Nat) (a b : State) (h : core a = core b) :
    core (steps n a) = core (steps n b) := by
  induction n generalizing a b with
  | zero => exact h
  | succ n ih => exact ih _ _ (core_step_congr a b h)

/-- A schedule whose signals all carry the number that the flag already holds
does, up to the lines on `stderr`, what its steps alone do. -/
theorem core_run (sched : List Action) (s : State)
    (hs : onlySignal s.gEarlyTermination sched = true) :
    core (run sched s) = core (steps (stepCount sched) s) := by
  induction sched generalizing s with
  | nil => rfl
  | cons a rest ih =>
    simp only [onlySignal, List.all_cons, Bool.and_eq_true] at hs
    cases a with
    | step =>
      have hf : (step s).gEarlyTermination = s.gEarlyTermination := (step_frame s).1
      have := ih (step s) (by rw [hf]; exact hs.2)
      simpa [run, exec, stepCount, steps] using this
    | signal m =>
      have hm : m = s.gEarlyTermination := by simpa using hs.1
      have hc : core (catch_SIGUSR2 m s) = core s := by
        rw [core_handler, hm]
        rfl
      have hf : (catch_SIGUSR2 m s).gEarlyTermination = s.gEarlyTermination := by
        simp [catch_SIGUSR2, hm]
      have := ih (catch_SIGUSR2 m s) (by rw [hf]; exact hs.2)
      simp only [run, exec, stepCount, List.countP_cons_of_neg, Bool.false_eq_true,
        not_false_eq_true]
      rw [this]
      exact core_steps_congr _ _ _ hc

theorem stepCount_le_apply (sched : List Action) (s : State) (n0 : Nat)
    (hdone : (steps n0 s).pc = PC.done) (hn : n0 ≤ stepCount sched)
    (hs : onlySignal s.gEarlyTermination sched = true) :
    core (run sched s) = core (steps n0 s) := by
  rw [core_run sched s hs, steps_of_le n0 _ s hdone hn]

/-- C4. Termination record on the root of the ring relay.  Let the root be at
one of its two polls (line 369, the head of the loop, or line 374, right after
the send) with the flag set and the round counter `k`, whatever the round
target.  Then this poll leaves the loop with the counter still `k`.  Whatever
comes next, steps of `main` and further deliveries of the same signal in any
order, once seven steps have been made the run is at `return 0` with the
counter `k`, with no send and no receive added, and with exactly one line added
to `out_fptr`, the last one: the termination record, which cites the value of
the flag, the round `k`, the rank and the size. -/
theorem root_termination_record (s : State)
    (hpc : s.pc = PC.rootCheckSignal ∨ s.pc = PC.rootCheckSignalAfterSend)
    (hflag : s.gEarlyTermination ≠ 0) (sched : List Action)
    (hsig : onlySignal s.gEarlyTermination sched = true) (hn : 7 ≤ stepCount sched) :
    (step s).pc = PC.rootReport ∧ (step s).round = s.round ∧
      (run sched s).pc = PC.done ∧ (run sched s).round = s.round ∧
      sendDests (run sched s).trace = sendDests s.trace ∧
      recvSources (run sched s).trace = recvSources s.trace ∧
      outLines (run sched s).trace = outLines s.trace ++
        [Event.out "Early termination on signal %d at round %lld in rank %d of %d\n"
          [Arg.int s.gEarlyTermination, Arg.int s.round, Arg.int s.rank, Arg.int s.size]] := by
  obtain ⟨h1, evs, h, o⟩ := root_stop_run s hpc hflag
  have hdone : (steps 7 s).pc = PC.done := by rw [h]
  have hcore := stepCount_le_apply sched s 7 hdone hn hsig
  rw [h] at hcore
  have hp : (run sched s).pc = PC.done := congrArg (fun x => x.pc) hcore
  have hr : (run sched s).round = s.round := congrArg (fun x => x.round) hcore
  have ht : observable (run sched s).trace = observable s.trace ++ ([earlyTerminationRecord s] ++ closing s) := by
    have := congrArg (fun x => x.trace) hcore
    simp only [core, observable_append, o] at this
    exact this
  rw [h1]
  refine ⟨rfl, rfl, hp, hr, ?_, ?_, ?_⟩
  · rw [← sendDests_observable, ht, sendDests_append, sendDests_append, sendDests_closing,
      sendDests_observable]
    simp [sendDests, earlyTerminationRecord]
  · rw [← recvSources_observable, ht, recvSources_append, recvSources_append,
      recvSources_closing, recvSources_observable]
    simp [recvSources, earlyTerminationRecord]
  · rw [← outLines_observable, ht, outLines_append, outLines_append, outLines_closing,
      outLines_observable]
    simp [outLines, earlyTerminationRecord]

/-- C4, on scenario C, with a second delivery of signal 12 on the way out: the
record cites signal 12 and round 5. -/
theorem root_termination_record_witness :
    (step scenarioC).pc = PC.rootReport ∧ (step scenarioC).round = 5 ∧
      (run (List.replicate 3 Action.step ++ [Action.signal 12] ++ List.replicate 4 Action.step)
        scenarioC).pc = PC.done ∧
      (run (List.replicate 3 Action.step ++ [Action.signal 12] ++ List.replicate 4 Action.step)
        scenarioC).round = 5 ∧
      sendDests (run
        (List.replicate 3 Action.step ++ [Action.signal 12] ++ List.replicate 4 Action.step)
        scenarioC).trace = sendDests scenarioC.trace ∧
      recvSources (run
        (List.replicate 3 Action.step ++ [Action.signal 12] ++ List.replicate 4 Action.step)
        scenarioC).trace = recvSources scenarioC.trace ∧
      outLines (run
        (List.replicate 3 Action.step ++ [Action.signal 12] ++ List.replicate 4 Action.step)
        scenarioC).trace = outLines scenarioC.trace ++
        [Event.out "Early termination on signal %d at round %lld in rank %d of %d\n"
          [Arg.int 12, Arg.int 5, Arg.int 0, Arg.int 4]] :=
  root_termination_record scenarioC (Or.inr (by decide)) (by decide)
    (List.replicate 3 Action.step ++ [Action.signal 12] ++ List.replicate 4 Action.step)
    (by decide) (by decide)

/-! ## A round target of zero, with signals -/

theorem skip_step (s : State) (hR : s.gRounds = 0) (hp : offLoop s.pc = true) :
    offLoop (step s).pc = true ∧ (step s).gRounds = 0 ∧
      coreNoFlag (step s) = coreNoFlag (step (coreNoFlag s)) := by
  have hc : (coreNoFlag s).pc = s.pc := rfl
  cases hpc : s.pc <;> rw [hpc] at hp <;> simp only [offLoop, Bool.false_eq_true] at hp
  · obtain ⟨e1, h1, o1⟩ := step_startBarrier s hpc
    obtain ⟨e2, h2, o2⟩ := step_startBarrier (coreNoFlag s) hpc
    rw [h1, h2]
    exact ⟨rfl, hR, by simp [coreNoFlag, o1, o2, observable_idem]⟩
  · rw [step_dispatch s hpc, step_dispatch (coreNoFlag s) hpc]
    have h0 : (coreNoFlag s).gRounds = 0 := hR
    rw [if_neg (by simp [hR]), if_neg (by simp [h0])]
    exact ⟨rfl, hR, by simp [coreNoFlag, observable_idem]⟩
  · obtain ⟨e1, h1, o1⟩ := step_freeBall s hpc
    obtain ⟨e2, h2, o2⟩ := step_freeBall (coreNoFlag s) hpc
    rw [h1, h2]
    exact ⟨rfl, hR, by simp [coreNoFlag, o1, o2, observable_idem]⟩
  · obtain ⟨e1, h1, o1⟩ := step_closeOutput s hpc
    obtain ⟨e2, h2, o2⟩ := step_closeOutput (coreNoFlag s) hpc
    rw [h1, h2]
    exact ⟨rfl, hR, by simp [coreNoFlag, o1, o2, observable_idem]⟩
  · obtain ⟨e1, h1, o1⟩ := step_endBarrier s hpc
    obtain ⟨e2, h2, o2⟩ := step_endBarrier (coreNoFlag s) hpc
    rw [h1, h2]
    exact ⟨rfl, hR, by simp [coreNoFlag, o1, o2, observable_idem]⟩
  · obtain ⟨e1, h1, o1⟩ := step_finalize s hpc
    obtain ⟨e2, h2, o2⟩ := step_finalize (coreNoFlag s) hpc
    rw [h1, h2]
    exact ⟨rfl, hR, by simp [coreNoFlag, o1, o2, observable_idem]⟩
  · have h1 : step s = s := by unfold step; rw [hpc]
    have h2 : step (coreNoFlag s) = coreNoFlag s := by unfold step; rw [hc, hpc]
    rw [h1, h2]
    exact ⟨by rw [hpc]; rfl, hR, by simp [coreNoFlag, observable_idem]⟩

theorem skip_handler (sigMask : Int) (s : State) :
    (catch_SIGUSR2 sigMask s).pc = s.pc ∧ (catch_SIGUSR2 sigMask s).gRounds = s.gRounds ∧
      coreNoFlag (catch_SIGUSR2 sigMask s) = coreNoFlag s := by
  rw [catch_SIGUSR2_eq sigMask s]
  refine ⟨rfl, rfl, ?_⟩
  by_cases hv : verbosity_warning ≤ s.gVerbosity <;> simp [coreNoFlag, hv]

theorem skip_steps_congr (n : Nat) (a b : State) (h : coreNoFlag a = coreNoFlag b)
    (hR : a.gRounds = 0) (hp : offLoop a.pc = true) :
    coreNoFlag (steps n a) = coreNoFlag (steps n b) := by
  induction n generalizing a b with
  | zero => exact h
  | succ n ih =>
    have hRb : b.gRounds = 0 := (congrArg (fun x => x.gRounds) h).symm.trans hR
    have hpb : offLoop b.pc = true := by
      have : a.pc = b.pc := congrArg (fun x => x.pc) h
      rw [← this]; exact hp
    obtain ⟨a1, a2, a3⟩ := skip_step a hR hp
    obtain ⟨_, _, b3⟩ := skip_step b hRb hpb
    exact ih (step a) (step b) (by rw [a3, b3, h]) a2 a1

/-- A run that skips the loops does, up to the lines on `stderr` and the value
of the flag, what its steps alone do, whatever signals are delivered. -/
theorem skip_run (sched : List Action) (s : State) (hR : s.gRounds = 0)
    (hp : offLoop s.pc = true) :
    coreNoFlag (run sched s) = coreNoFlag (steps (stepCount sched) s) := by
  induction sched generalizing s with
  | nil => rfl
  | cons a rest ih =>
    cases a with
    | step =>
      obtain ⟨a1, a2, _⟩ := skip_step s hR hp
      have := ih (step s) a2 a1
      simpa [run, exec, stepCount, steps] using this
    | signal m =>
      obtain ⟨h1, h2, h3⟩ := skip_handler m s
      have := ih (catch_SIGUSR2 m s) (h2.trans hR) (by rw [h1]; exact hp)
      simp only [run, exec, stepCount, List.countP_cons_of_neg, Bool.false_eq_true,
        not_false_eq_true]
      rw [this]
      exact skip_steps_congr _ _ _ h3 (h2.trans hR) (by rw [h1]; exact hp)

/-- C5. A round target of zero skips the circulation: whatever the number of
ranks, the rank, the root, the method and the flag, and whatever signals are
delivered on the way, a run that is at the start barrier with `gRounds == 0` is
at `return 0` once six steps have been made, having added to its communication
calls exactly two barriers, one after the other, so no send, no receive and no
broadcast, and having written nothing to `out_fptr`, so no `Started round`
line. -/
theorem zero_rounds_skip (s : State) (hpc : s.pc = PC.startBarrier) (hrounds : s.gRounds = 0)
    (sched : List Action) (hn : 6 ≤ stepCount sched) :
    (run sched s).pc = PC.done ∧
      commCalls (run sched s).trace = commCalls s.trace ++ [Event.MPI_Barrier, Event.MPI_Barrier] ∧
      sendDests (run sched s).trace = sendDests s.trace ∧
      recvSources (run sched s).trace = recvSources s.trace ∧
      bcastRoots (run sched s).trace = bcastRoots s.trace ∧
      outLines (run sched s).trace = outLines s.trace := by
  obtain ⟨evs, h, o⟩ := zero_rounds_run s hpc hrounds
  have hdone : (steps 6 s).pc = PC.done := by rw [h]
  have hcore := skip_run sched s hrounds (by rw [hpc]; rfl)
  rw [steps_of_le 6 _ s hdone hn, h] at hcore
  have hp : (run sched s).pc = PC.done := congrArg (fun x => x.pc) hcore
  have ht : observable (run sched s).trace
      = observable s.trace ++ ([Event.MPI_Barrier] ++ closing s) := by
    have := congrArg (fun x => x.trace) hcore
    simp only [coreNoFlag, observable_append, o] at this
    exact this
  refine ⟨hp, ?_, ?_, ?_, ?_, ?_⟩
  · rw [← commCalls_observable, ht, commCalls_append, commCalls_append, commCalls_closing,
      commCalls_observable]
    rfl
  · rw [← sendDests_observable, ht, sendDests_append, sendDests_append, sendDests_closing,
      sendDests_observable]
    simp [sendDests]
  · rw [← recvSources_observable, ht, recvSources_append, recvSources_append,
      recvSources_closing, recvSources_observable]
    simp [recvSources]
  · rw [← bcastRoots_observable, ht, bcastRoots_append, bcastRoots_append, bcastRoots_closing,
      bcastRoots_observable]
    simp [bcastRoots]
  · rw [← outLines_observable, ht, outLines_append, outLines_append, outLines_closing,
      outLines_observable]
    simp [outLines]

/-- C5, on rank 2 of three in a rotating broadcast with root 1, with a signal
delivered after the start barrier. -/
theorem zero_rounds_skip_witness :
    (run (Action.step :: Action.signal 12 :: List.replicate 5 Action.step) zeroRounds).pc
        = PC.done ∧
      commCalls (run (Action.step :: Action.signal 12 :: List.replicate 5 Action.step)
          zeroRounds).trace
        = commCalls [] ++ [Event.MPI_Barrier, Event.MPI_Barrier] ∧
      sendDests (run (Action.step :: Action.signal 12 :: List.replicate 5 Action.step)
          zeroRounds).trace = sendDests [] ∧
      recvSources (run (Action.step :: Action.signal 12 :: List.replicate 5 Action.step)
          zeroRounds).trace = recvSources [] ∧
      bcastRoots (run (Action.step :: Action.signal 12 :: List.replicate 5 Action.step)
          zeroRounds).trace = bcastRoots [] ∧
      outLines (run (Action.step :: Action.signal 12 :: List.replicate 5 Action.step)
          zeroRounds).trace = outLines [] :=
  zero_rounds_skip zeroRounds rfl rfl
    (Action.step :: Action.signal 12 :: List.replicate 5 Action.step) (by decide)

end MpiBounce
